import Mathlib

/-!
Verification of the `hdf2tif.py` conversion pipeline (OpenGeoscience/geoutilities).

The script is a linear pipeline over an external raster library (GDAL):
open an HDF container, enumerate subdatasets, build one single-band VRT per
requested band, patch each VRT's XML (data type and scale ratio), merge the
VRTs (sorted by filename) into one multi-band VRT, warp or copy it into a
TIFF, inject band-name metadata, and delete the temporaries.

We shallow-embed the script: Python strings become `String`, the filesystem
becomes an explicit record of present file and directory paths, and each GDAL
call is recorded in the run's result.  Python's `str` operations
(`replace`, `split`, `zfill`, `lower`, lexicographic `sorted`) are modelled
by executable Lean functions with the same semantics on the inputs that
occur.  `KeyError` (missing dict key) and `IndexError` (empty-sequence
indexing) — both Python `LookupError`s — become the two error kinds of an
`Except` result that also carries the filesystem state at the failure point.
-/

namespace Hdf2Tif

/-! ### Character-list utilities mirroring Python string semantics -/

/-- Boolean prefix test on character lists. -/
def prefixB : List Char → List Char → Bool
  | [], _ => true
  | _ :: _, [] => false
  | a :: as, b :: bs => a == b && prefixB as bs

/-- Boolean suffix test on character lists. -/
def suffixB (pat l : List Char) : Bool :=
  prefixB pat.reverse l.reverse

/-- Boolean contiguous-substring test on character lists
(Python's `pat in s`). -/
def subListIn (pat : List Char) : List Char → Bool
  | [] => pat.isEmpty
  | l@(_ :: tl) => prefixB pat l || subListIn pat tl

/-- Python's `pat in s` on strings. -/
def containsStr (pat s : String) : Bool :=
  subListIn pat.data s.data

/-- Strict lexicographic comparison of character lists by code point:
Python's `<` on `str`. -/
def lexLt : List Char → List Char → Bool
  | [], [] => false
  | [], _ :: _ => true
  | _ :: _, [] => false
  | a :: as, b :: bs => if a < b then true else if b < a then false else lexLt as bs

/-- Python's `s < t` on strings. -/
def lexLtS (s t : String) : Bool :=
  lexLt s.data t.data

/-- Insert a string into a list, keeping earlier elements that are
strictly smaller in front (the comparison Python's sort performs). -/
def insertStr (x : String) : List String → List String
  | [] => [x]
  | y :: ys => if lexLtS y x then y :: insertStr x ys else x :: y :: ys

/-- Python's `sorted` on a list of strings (ascending, stable). -/
def pySorted (l : List String) : List String :=
  l.foldr insertStr []

/-- Split a character list at every occurrence of `sep`
(Python's `s.split(sep)` for a one-character separator). -/
def splitChars (sep : Char) : List Char → List (List Char)
  | [] => [[]]
  | c :: cs =>
    match splitChars sep cs with
    | [] => [[]]
    | h :: t => if c == sep then [] :: h :: t else (c :: h) :: t

/-- Python's `s.split(":")` as a list of strings. -/
def colonParts (s : String) : List String :=
  (splitChars ':' s.data).map (fun l => ⟨l⟩)

/-- Python's `s.split(":")[-1]` (the split list is never empty). -/
def lastColonPart (s : String) : String :=
  ⟨(splitChars ':' s.data).getLastD []⟩

/-- One step of decimal rendering with explicit fuel, so the kernel can
evaluate it.  `fuel ≥ 1 + number of digits` always holds at the call site. -/
def reprCore (fuel n : Nat) : List Char :=
  match fuel with
  | 0 => []
  | fuel' + 1 =>
    if n < 10 then [Nat.digitChar n]
    else reprCore fuel' (n / 10) ++ [Nat.digitChar (n % 10)]

/-- Python's `str(n)` for a natural number. -/
def pyNatRepr (n : Nat) : String :=
  ⟨reprCore (n + 1) n⟩

/-- Python's `str(n).zfill(2)`: pad on the left with `'0'` to width two. -/
def zfill2 (n : Nat) : String :=
  if (pyNatRepr n).data.length < 2 then "0" ++ pyNatRepr n else pyNatRepr n

/-- Replacement core with explicit fuel (`fuel ≥ length of s` suffices):
replace every non-overlapping occurrence of `pat`, scanning left to right. -/
def replaceCore (pat rep : List Char) : Nat → List Char → List Char
  | 0, s => s
  | fuel + 1, s =>
    match s with
    | [] => []
    | c :: cs =>
      if pat ≠ [] ∧ prefixB pat (c :: cs) = true then
        rep ++ replaceCore pat rep fuel ((c :: cs).drop pat.length)
      else
        c :: replaceCore pat rep fuel cs

/-- Python's `s.replace(pat, rep)` (for the nonempty patterns used here). -/
def pyReplace (s pat rep : String) : String :=
  ⟨replaceCore pat.data rep.data s.data.length s.data⟩

/-- Python's `s.lower()` (ASCII, which is all that occurs in metadata keys). -/
def lowerStr (s : String) : String :=
  ⟨s.data.map Char.toLower⟩

/-- The single-quote character, used by Python's `str` on a list of strings. -/
def pyQ : String :=
  String.singleton (Char.ofNat 39)

/-- Python's `str(l)` for a list of strings without embedded quotes:
`"['a', 'b']"`. -/
def pyStrList (l : List String) : String :=
  "[" ++ String.intercalate ", " (l.map (fun s => pyQ ++ s ++ pyQ)) ++ "]"

/-- Index of the last occurrence of `c` in `l`, if any
(Python's `s.rfind(c)`). -/
def rfindIdx (c : Char) : List Char → Option Nat
  | [] => none
  | x :: xs =>
    match rfindIdx c xs with
    | some i => some (i + 1)
    | none => if x == c then some 0 else none

/-- The stem returned by `os.path.splitext(p)[0]` (POSIX rules): cut at the
last dot provided it lies after the last slash and the base name has a
non-dot character before it. -/
def splitextStem (p : String) : String :=
  let l := p.data
  match rfindIdx '.' l with
  | none => p
  | some dot =>
    let sepSucc : Nat := match rfindIdx '/' l with | some i => i + 1 | none => 0
    if sepSucc ≤ dot ∧ ((l.take dot).drop sepSucc).any (fun c => c ≠ '.') then
      ⟨l.take dot⟩
    else p

/-! ### Filesystem model -/

/-- The filesystem visible to the script: the file paths and directory paths
that currently exist, in directory-listing order. -/
structure FS where
  files : List String
  dirs : List String
deriving Repr, DecidableEq

/-- Membership test on a list of paths. -/
def hasStr (l : List String) (p : String) : Bool :=
  l.any (fun q => q == p)

/-- `os.path.exists`: true for files and for directories. -/
def pathExists (fs : FS) (p : String) : Bool :=
  hasStr fs.files p || hasStr fs.dirs p

/-- Creating a file (GDAL creates or overwrites the output of `BuildVRT`
and `Warp`): append the path if it is not already present. -/
def addFile (fs : FS) (p : String) : FS :=
  if hasStr fs.files p then fs else { fs with files := fs.files ++ [p] }

/-- `os.remove p`. -/
def removeFile (fs : FS) (p : String) : FS :=
  { fs with files := fs.files.filter (fun q => !(q == p)) }

/-- Is `p` strictly inside directory `d` (at any depth)? -/
def underDir (d p : String) : Bool :=
  prefixB (d.data ++ ['/']) p.data

/-- `shutil.rmtree d`: delete everything under `d` and `d` itself. -/
def removeTree (fs : FS) (d : String) : FS :=
  { files := fs.files.filter (fun p => !(underDir d p)),
    dirs := fs.dirs.filter (fun p => !(p == d || underDir d p)) }

/-- Does path `p` match the glob pattern `directory/*.extension`?  The star
matches any run of characters that contains no slash and does not begin the
name with a dot (glob hides dotfiles). -/
def globMatch (directory extension p : String) : Bool :=
  prefixB (directory.data ++ ['/']) p.data &&
  (let base := p.data.drop (directory.data.length + 1)
   !(base.any (fun c => c == '/')) && !(prefixB ['.'] base) &&
   suffixB ('.' :: extension.data) base)

/-- `list_files` (hdf2tif.py lines 13-22): all files in `directory` matching
`*.extension`, in listing order. -/
def list_files (fs : FS) (directory extension : String) : List String :=
  fs.files.filter (globMatch directory extension)

/-- `create_output_directory` (lines 25-37): the working directory is the
stem of the HDF path; it is created only if nothing with that name exists. -/
def create_output_directory (fs : FS) (hdf : String) : FS × String :=
  let direc := splitextStem hdf
  (if pathExists fs direc then fs else { fs with dirs := fs.dirs ++ [direc] }, direc)

/-! ### GDAL-facing data -/

/-- What `gdal.Open` reports for the input HDF file, plus the program's own
install directory (`DIRECTORY` in the script). -/
structure Env where
  directory : String
  subdatasets : List (String × String)
  metadata : String → List (String × String)

/-- The two unhandled Python `LookupError`s the script can raise:
`KeyError` from the filtered band dictionary and `IndexError` from indexing
an empty sequence. -/
inductive ExcKind where
  | keyError
  | indexError
deriving Repr, DecidableEq

/-- `get_metadata_item` (lines 40-58): keep the metadata entries whose key
contains the keyword case-insensitively, then take the value of the first
remaining key; `none` models the `IndexError` when nothing matches. -/
def get_metadata_item (metadata : List (String × String)) (keyword : String) :
    Option String :=
  ((metadata.filter (fun kv => containsStr keyword (lowerStr kv.1))).head?).map Prod.snd

/-- The options of `gdal.WarpOptions` the script passes. -/
structure WarpOptions where
  srcSRS : String
  dstSRS : String
  warpMemoryLimit : String
  multithread : Bool
deriving Repr, DecidableEq

/-- The warp options built when reprojection is requested (lines 163-166). -/
def sinuWarpOptions : WarpOptions :=
  { srcSRS := "+proj=sinu +R=6371007.181 +nadgrids=@null +wktext",
    dstSRS := "EPSG:4326",
    warpMemoryLimit := "4096",
    multithread := true }

/-- Whether `gdal.Warp` ran, and with which options (`none` models the empty
options string used when no reprojection is requested). -/
inductive WarpAction where
  | skipped
  | ran (opts : Option WarpOptions)
deriving Repr, DecidableEq

/-- One `gdal.BuildVRT` + `modify_vrt` round in `convert_to_vrt`: the VRT
path written, the subdataset connection string it references, and the scale
written into it. -/
structure BandVrtCall where
  output : String
  source : String
  scale : String
deriving Repr, DecidableEq

/-- `subdatasets_dict[b]` in `convert_to_vrt`: the dictionary keyed by
1-based position; a missing key is Python's `KeyError`. -/
def dictGet (subs : List (String × String)) (b : Nat) : Option (String × String) :=
  match b with
  | 0 => none
  | k + 1 => subs[k]?

/-- The single-band VRT name in the explicit-bands branch (lines 103-108):
`{order:02}_Band{band:02}_{connection string after the last colon}.vrt`. -/
def bandVrtName (data_dir : String) (order band : Nat) (suffix : String) : String :=
  data_dir ++ "/" ++ zfill2 order ++ "_Band" ++ zfill2 band ++ "_" ++ suffix ++ ".vrt"

/-- The single-band VRT name in the no-bands branch (lines 120-124):
`Band{order:02}_{full connection string}.vrt`. -/
def allVrtName (data_dir : String) (order : Nat) (conn : String) : String :=
  data_dir ++ "/Band" ++ zfill2 order ++ "_" ++ conn ++ ".vrt"

/-- The loop of the explicit-bands branch of `convert_to_vrt`
(lines 98-116), threading the filesystem and collecting the calls made. -/
def convertBands (env : Env) (data_dir : String) :
    List Nat → Nat → FS → Except (ExcKind × FS) (FS × List BandVrtCall)
  | [], _, fs => .ok (fs, [])
  | b :: rest, order, fs =>
    match dictGet env.subdatasets b with
    | none => .error (.keyError, fs)
    | some sd =>
      let name := bandVrtName data_dir order b (lastColonPart sd.1)
      let fs1 := addFile fs name
      match get_metadata_item (env.metadata sd.1) "scale" with
      | none => .error (.indexError, fs1)
      | some scale =>
        match convertBands env data_dir rest (order + 1) fs1 with
        | .error e => .error e
        | .ok (fs2, calls) => .ok (fs2, ⟨name, sd.1, scale⟩ :: calls)

/-- The loop of the no-bands branch of `convert_to_vrt` (lines 117-130);
the dictionary of small consecutive integer keys iterates in key order. -/
def convertAll (env : Env) (data_dir : String) :
    List (String × String) → Nat → FS → Except (ExcKind × FS) (FS × List BandVrtCall)
  | [], _, fs => .ok (fs, [])
  | sd :: rest, order, fs =>
    let name := allVrtName data_dir order sd.1
    let fs1 := addFile fs name
    match get_metadata_item (env.metadata sd.1) "scale" with
    | none => .error (.indexError, fs1)
    | some scale =>
      match convertAll env data_dir rest (order + 1) fs1 with
      | .error e => .error e
      | .ok (fs2, calls) => .ok (fs2, ⟨name, sd.1, scale⟩ :: calls)

/-- `convert_to_vrt` (lines 89-130). -/
def convert_to_vrt (env : Env) (subdatasets : List (String × String))
    (data_dir : String) (bands : List Nat) (fs : FS) :
    Except (ExcKind × FS) (FS × List BandVrtCall) :=
  if bands.isEmpty then convertAll env data_dir subdatasets 1 fs
  else convertBands env data_dir bands 1 fs

/-- The band-name metadata loop (lines 175-182):
`str(index + 1).zfill(2) + ":" + subd[0].split(":")[4]` for every original
subdataset; `none` models the `IndexError` when a connection string has
fewer than five colon-separated parts. -/
def bandNamesOpt : List (String × String) → Nat → Option (List String)
  | [], _ => some []
  | sd :: rest, i =>
    match (colonParts sd.1)[4]? with
    | none => none
    | some frag =>
      match bandNamesOpt rest (i + 1) with
      | none => none
      | some ls => some ((zfill2 i ++ ":" ++ frag) :: ls)

/-- `hdf.replace('.hdf', '.vrt')` (line 160). -/
def vrtOutputPath (hdf : String) : String :=
  pyReplace hdf ".hdf" ".vrt"

/-- `vrt_output.replace('.vrt', '.tif')` (line 169). -/
def tiffOutputPath (hdf : String) : String :=
  pyReplace (vrtOutputPath hdf) ".vrt" ".tif"

/-- Everything `hdf2tif` records about a successful run: the final
filesystem, the per-band VRT rounds, the merge `BuildVRT` call, the warp
decision, the metadata injection, and the returned path. -/
structure RunResult where
  fs : FS
  bandVrts : List BandVrtCall
  mergeOutput : String
  mergeInputs : List String
  mergeSeparate : Bool
  warp : WarpAction
  metadataTarget : String
  metadataValue : String
  ret : String
deriving Repr, DecidableEq

/-- The overwrite handling of `hdf2tif` (lines 148-152): delete the first
`.tif` that `list_files` reports in the program's own directory; the
`IndexError` on an empty listing is suppressed. -/
def overwriteStep (env : Env) (fs : FS) (overwrite : Bool) : FS :=
  if overwrite then
    match list_files fs env.directory "tif" with
    | [] => fs
    | t :: _ => removeFile fs t
  else fs

/-- `hdf2tif` after the overwrite handling (lines 154-189). -/
def hdf2tifRest (env : Env) (fs1 : FS) (hdf : String) (bands : List Nat)
    (reproject : Bool) : Except (ExcKind × FS) RunResult :=
  let subdatasets := env.subdatasets
  let p := create_output_directory fs1 hdf
  match convert_to_vrt env subdatasets p.2 bands p.1 with
  | .error e => .error e
  | .ok (fs3, calls) =>
    let vrt_list := list_files fs3 p.2 "vrt"
    let vrt_output := vrtOutputPath hdf
    let fs4 := addFile fs3 vrt_output
    let output_tiff := tiffOutputPath hdf
    let w := if pathExists fs4 output_tiff then (fs4, WarpAction.skipped)
             else (addFile fs4 output_tiff,
                   WarpAction.ran (if reproject then some sinuWarpOptions else none))
    match bandNamesOpt subdatasets 1 with
    | none => .error (.indexError, w.1)
    | some labels =>
      let fs6 := removeFile w.1 vrt_output
      let fs7 := removeTree fs6 p.2
      .ok { fs := fs7, bandVrts := calls, mergeOutput := vrt_output,
            mergeInputs := pySorted vrt_list, mergeSeparate := true,
            warp := w.2, metadataTarget := output_tiff,
            metadataValue := pyStrList labels, ret := output_tiff }

/-- `hdf2tif` (lines 139-189). -/
def hdf2tif (env : Env) (fs0 : FS) (hdf : String) (overwrite : Bool)
    (bands : List Nat) (reproject : Bool := true) :
    Except (ExcKind × FS) RunResult :=
  hdf2tifRest env (overwriteStep env fs0 overwrite) hdf bands reproject

/-! ### Observers on a run, used to state the claims -/

/-- Did the run return normally? -/
def runOk : Except (ExcKind × FS) RunResult → Bool
  | .ok _ => true
  | .error _ => false

/-- The inputs of the merge `BuildVRT` call of a successful run. -/
def runMergeInputs : Except (ExcKind × FS) RunResult → Option (List String)
  | .ok r => some r.mergeInputs
  | .error _ => none

/-- The `separate` flag of the merge `BuildVRT` call. -/
def runMergeSeparate : Except (ExcKind × FS) RunResult → Option Bool
  | .ok r => some r.mergeSeparate
  | .error _ => none

/-- The merged-VRT path of a successful run. -/
def runMergeOutput : Except (ExcKind × FS) RunResult → Option String
  | .ok r => some r.mergeOutput
  | .error _ => none

/-- The warp decision of a successful run. -/
def runWarp : Except (ExcKind × FS) RunResult → Option WarpAction
  | .ok r => some r.warp
  | .error _ => none

/-- The path `hdf2tif` returned. -/
def runRet : Except (ExcKind × FS) RunResult → Option String
  | .ok r => some r.ret
  | .error _ => none

/-- The path `SetMetadata` was applied to. -/
def runMetadataTarget : Except (ExcKind × FS) RunResult → Option String
  | .ok r => some r.metadataTarget
  | .error _ => none

/-- The string `SetMetadata` attached. -/
def runMetadataValue : Except (ExcKind × FS) RunResult → Option String
  | .ok r => some r.metadataValue
  | .error _ => none

/-- The per-band VRT rounds of a successful run. -/
def runBandVrts : Except (ExcKind × FS) RunResult → Option (List BandVrtCall)
  | .ok r => some r.bandVrts
  | .error _ => none

/-- The files present after the run ends, normally or by exception. -/
def runFilesAtEnd : Except (ExcKind × FS) RunResult → List String
  | .ok r => r.fs.files
  | .error (_, fs) => fs.files

/-- The directories present after a successful run. -/
def runDirs : Except (ExcKind × FS) RunResult → Option (List String)
  | .ok r => some r.fs.dirs
  | .error _ => none

/-- The exception kind of a failed run. -/
def runErr : Except (ExcKind × FS) RunResult → Option ExcKind
  | .ok _ => none
  | .error (k, _) => some k

/-! ### Lemmas about the string utilities -/

lemma data_append (s t : String) : (s ++ t).data = s.data ++ t.data := by
  cases s; cases t; rfl

lemma prefixB_refl : ∀ l : List Char, prefixB l l = true
  | [] => rfl
  | a :: as => by simp [prefixB, prefixB_refl as]

lemma prefixB_append_congr (p a b : List Char) :
    prefixB (p ++ a) (p ++ b) = prefixB a b := by
  induction p with
  | nil => rfl
  | cons c cs ih => simp [prefixB, ih]

lemma take_of_prefixB : ∀ a b : List Char, prefixB a b = true → b.take a.length = a
  | [], _, _ => by simp
  | _ :: _, [], h => by simp [prefixB] at h
  | a :: as, b :: bs, h => by
    simp only [prefixB, Bool.and_eq_true, beq_iff_eq] at h
    simp [List.take, h.1.symm, take_of_prefixB as bs h.2]

lemma lexLt_irrefl : ∀ l : List Char, lexLt l l = false
  | [] => rfl
  | a :: as => by simp [lexLt, lexLt_irrefl as]

lemma lexLt_asymm : ∀ a b : List Char, lexLt a b = true → lexLt b a = false
  | [], [], h => by simp [lexLt] at h
  | [], _ :: _, _ => by simp [lexLt]
  | _ :: _, [], h => by simp [lexLt] at h
  | a :: as, b :: bs, h => by
    by_cases h1 : a < b
    · have h2 : ¬ b < a := lt_asymm h1
      simp [lexLt, h1, h2]
    · by_cases h2 : b < a
      · simp [lexLt, h1, h2] at h
      · simp only [lexLt, h1, h2, if_false] at h ⊢
        exact lexLt_asymm as bs h

lemma lexLt_trans : ∀ a b c : List Char,
    lexLt a b = true → lexLt b c = true → lexLt a c = true
  | [], [], _, h1, _ => by exact absurd h1 (by decide)
  | [], _ :: _, [], _, h2 => by simp [lexLt] at h2
  | [], _ :: _, _ :: _, _, _ => by simp [lexLt]
  | _ :: _, [], _, h1, _ => by simp [lexLt] at h1
  | _ :: _, _ :: _, [], _, h2 => by simp [lexLt] at h2
  | a :: as, b :: bs, c :: cs, h1, h2 => by
    by_cases hab : a < b
    · by_cases hbc : b < c
      · simp [lexLt, lt_trans hab hbc]
      · by_cases hcb : c < b
        · simp [lexLt, hbc, hcb] at h2
        · have hbc' : b = c := le_antisymm (not_lt.1 hcb) (not_lt.1 hbc)
          simp [lexLt, hbc' ▸ hab]
    · by_cases hba : b < a
      · simp [lexLt, hab, hba] at h1
      · have hab' : a = b := le_antisymm (not_lt.1 hba) (not_lt.1 hab)
        subst hab'
        by_cases hac : a < c
        · simp [lexLt, hac]
        · by_cases hca : c < a
          · simp [lexLt, hac, hca] at h2
          · simp only [lexLt, hac, hca, if_false] at h2 ⊢
            simp only [lexLt, lt_irrefl, if_false] at h1
            exact lexLt_trans as bs cs h1 h2

lemma lexLt_cons_same (c : Char) (x y : List Char) :
    lexLt (c :: x) (c :: y) = lexLt x y := by
  simp [lexLt]

lemma lexLt_append_congr (p x y : List Char) :
    lexLt (p ++ x) (p ++ y) = lexLt x y := by
  induction p with
  | nil => rfl
  | cons c cs ih => simpa [lexLt_cons_same] using ih

lemma lexLt_append_of_lt : ∀ a b r s : List Char, a.length = b.length →
    lexLt a b = true → lexLt (a ++ r) (b ++ s) = true
  | [], [], _, _, _, h => by exact absurd h (by decide)
  | [], _ :: _, _, _, hl, _ => by
    simp only [List.length_nil, List.length_cons] at hl
    omega
  | _ :: _, [], _, _, hl, _ => by
    simp only [List.length_nil, List.length_cons] at hl
    omega
  | a :: as, b :: bs, r, s, hl, h => by
    by_cases h1 : a < b
    · simp [lexLt, h1]
    · by_cases h2 : b < a
      · simp [lexLt, h1, h2] at h
      · simp only [lexLt, h1, h2, if_false] at h ⊢
        simp only [List.length_cons, Nat.succ.injEq] at hl
        exact lexLt_append_of_lt as bs r s hl h

lemma insertStr_front (x y : String) (ys : List String)
    (h : lexLtS x y = true) : insertStr x (y :: ys) = x :: y :: ys := by
  have h' : lexLtS y x = false := lexLt_asymm _ _ h
  simp [insertStr, h']

lemma pySorted_id : ∀ l : List String,
    List.Chain' (fun a b => lexLtS a b = true) l → pySorted l = l
  | [], _ => rfl
  | x :: xs, h => by
    have ht := List.Chain'.tail h
    have ih := pySorted_id xs ht
    show insertStr x (pySorted xs) = x :: xs
    rw [ih]
    cases xs with
    | nil => rfl
    | cons y ys =>
      exact insertStr_front x y ys (List.chain'_cons.1 h).1

/-- Strict lexicographic order on strings is transitive, as a relation. -/
instance : IsTrans String (fun a b => lexLtS a b = true) :=
  ⟨fun _ _ _ h1 h2 => lexLt_trans _ _ _ h1 h2⟩

lemma chain_lexLt_pairwise {l : List String}
    (h : List.Chain' (fun a b => lexLtS a b = true) l) :
    List.Pairwise (fun a b => lexLtS a b = true) l :=
  List.chain'_iff_pairwise.1 h

lemma chain_lexLt_nodup {l : List String}
    (h : List.Chain' (fun a b => lexLtS a b = true) l) : l.Nodup := by
  refine (chain_lexLt_pairwise h).imp ?_
  intro a b hab he
  subst he
  simp [lexLtS, lexLt_irrefl] at hab

/-! ### Lemmas about `pyReplace` -/

lemma replaceCore_nil (pat rep : List Char) : ∀ fuel,
    replaceCore pat rep fuel [] = []
  | 0 => rfl
  | _ + 1 => rfl

lemma replaceCore_append_pat (p0 : Char) (pr rep : List Char)
    (hnp : p0 ∉ pr) :
    ∀ (stemL : List Char) (fuel : Nat),
      stemL.length + (p0 :: pr).length ≤ fuel →
      subListIn (p0 :: pr) stemL = false →
      replaceCore (p0 :: pr) rep fuel (stemL ++ (p0 :: pr)) = stemL ++ rep
  | [], fuel, hf, _ => by
    match fuel, hf with
    | fuel' + 1, _ =>
      simp only [List.nil_append, replaceCore]
      rw [if_pos ⟨by simp, prefixB_refl _⟩]
      simp [List.drop_length, replaceCore_nil]
  | c :: cs, fuel, hf, hni => by
    match fuel, hf with
    | fuel' + 1, hf =>
      have hni1 : prefixB (p0 :: pr) (c :: cs) = false := by
        cases h : prefixB (p0 :: pr) (c :: cs) <;> simp_all [subListIn]
      have hni2 : subListIn (p0 :: pr) cs = false := by
        cases h : subListIn (p0 :: pr) cs <;> simp_all [subListIn]
      have hcond : ¬ ((p0 :: pr) ≠ [] ∧
          prefixB (p0 :: pr) (c :: (cs ++ (p0 :: pr))) = true) := by
        rintro ⟨-, hpre⟩
        rw [← List.cons_append] at hpre
        by_cases hlen : (p0 :: pr).length ≤ (c :: cs).length
        · have htake := take_of_prefixB _ _ hpre
          rw [List.take_append_of_le_length hlen] at htake
          have : prefixB (p0 :: pr) (c :: cs) = true := by
            have hsub : ∀ a b : List Char, b.take a.length = a →
                prefixB a b = true := by
              intro a
              induction a with
              | nil => intro b _; rfl
              | cons x xs ih =>
                intro b ht
                cases b with
                | nil => simp at ht
                | cons y ys =>
                  simp only [List.length_cons, List.take_succ_cons,
                    List.cons.injEq] at ht
                  simp [prefixB, ht.1, ih ys ht.2]
            exact hsub _ _ htake
          rw [hni1] at this
          cases this
        · push_neg at hlen
          have htake := take_of_prefixB _ _ hpre
          have hsplit : (p0 :: pr).length =
              (c :: cs).length + ((p0 :: pr).length - (c :: cs).length) := by
            omega
          rw [hsplit, List.take_append] at htake
          -- the pattern would have to begin with a copy of the stem and
          -- then with its own first character again
          have hne : (p0 :: pr).length - (c :: cs).length ≥ 1 := by omega
          have htk : List.take ((p0 :: pr).length - (c :: cs).length)
              (p0 :: pr) = p0 :: List.take
                ((p0 :: pr).length - (c :: cs).length - 1) pr := by
            match h : (p0 :: pr).length - (c :: cs).length, hne with
            | k + 1, _ => simp
          rw [htk] at htake
          -- htake : (c :: cs) ++ (p0 :: take _ pr) = p0 :: pr
          have hmem : p0 ∈ pr := by
            have : pr = cs ++ (p0 :: List.take
                ((p0 :: pr).length - (c :: cs).length - 1) pr) := by
              have := htake
              simp only [List.cons_append, List.cons.injEq] at this
              exact this.2.symm
            rw [this]
            simp
          exact hnp hmem
      have hf' : cs.length + (p0 :: pr).length ≤ fuel' := by
        simp only [List.length_cons] at hf ⊢
        omega
      show replaceCore (p0 :: pr) rep (fuel' + 1) ((c :: cs) ++ (p0 :: pr)) =
        (c :: cs) ++ rep
      simp only [List.cons_append, replaceCore]
      rw [if_neg hcond]
      rw [replaceCore_append_pat p0 pr rep hnp cs fuel' hf' hni2]

lemma pyReplace_stem_ext (stem pat rep : String) (p0 : Char) (pr : List Char)
    (hp : pat.data = p0 :: pr) (hnp : p0 ∉ pr)
    (hni : containsStr pat stem = false) :
    pyReplace (stem ++ pat) pat rep = stem ++ rep := by
  have hni' : subListIn (p0 :: pr) stem.data = false := by
    unfold containsStr at hni
    rw [hp] at hni
    exact hni
  apply String.ext
  show replaceCore pat.data rep.data (stem ++ pat).data.length
      (stem ++ pat).data = (stem ++ rep).data
  rw [data_append, data_append, hp]
  exact replaceCore_append_pat p0 pr rep.data hnp stem.data _ (by simp) hni'

/-! ### Decimal rendering and `zfill2` facts -/

lemma digitChar_isDigit (d : Nat) (h : d < 10) :
    (Nat.digitChar d).isDigit = true := by
  have : ∀ d : Fin 10, (Nat.digitChar d.val).isDigit = true := by decide
  exact this ⟨d, h⟩

lemma reprCore_digits : ∀ fuel n, ∀ c ∈ reprCore fuel n, c.isDigit = true := by
  intro fuel
  induction fuel with
  | zero => intro n c hc; simp [reprCore] at hc
  | succ f ih =>
    intro n c hc
    by_cases h : n < 10
    · simp only [reprCore, if_pos h, List.mem_singleton] at hc
      exact hc ▸ digitChar_isDigit n h
    · simp only [reprCore, if_neg h, List.mem_append, List.mem_singleton] at hc
      rcases hc with hc | hc
      · exact ih (n / 10) c hc
      · exact hc ▸ digitChar_isDigit (n % 10) (Nat.mod_lt n (by omega))

lemma reprCore_ne_nil (fuel n : Nat) (hf : 1 ≤ fuel) :
    reprCore fuel n ≠ [] := by
  match fuel, hf with
  | f + 1, _ =>
    by_cases h : n < 10 <;> simp [reprCore, h]

lemma zfill2_digits (n : Nat) : ∀ c ∈ (zfill2 n).data, c.isDigit = true := by
  intro c hc
  unfold zfill2 at hc
  split at hc
  · rw [data_append] at hc
    rcases List.mem_append.1 hc with hc | hc
    · simp only [show ("0" : String).data = ['0'] from rfl,
        List.mem_singleton] at hc
      subst hc; decide
    · exact reprCore_digits _ _ c hc
  · exact reprCore_digits _ _ c hc

lemma zfill2_head_digit (n : Nat) :
    ∃ c cs, (zfill2 n).data = c :: cs ∧ c.isDigit = true := by
  have hne : (zfill2 n).data ≠ [] := by
    unfold zfill2
    split
    · rw [data_append]
      simp [show ("0" : String).data = ['0'] from rfl]
    · exact reprCore_ne_nil _ _ (by omega)
  match h : (zfill2 n).data, hne with
  | c :: cs, _ =>
    exact ⟨c, cs, rfl, zfill2_digits n c (by rw [h]; exact List.mem_cons_self ..)⟩

set_option maxRecDepth 4000 in
lemma zfill2_lt (i j : Nat) (hi : i < 100) (hj : j < 100) (hij : i < j) :
    lexLt (zfill2 i).data (zfill2 j).data = true := by
  have key : ∀ i : Fin 100, ∀ j : Fin 100, i.val < j.val →
      lexLt (zfill2 i.val).data (zfill2 j.val).data = true := by decide
  exact key ⟨i, hi⟩ ⟨j, hj⟩ hij

lemma zfill2_len (i : Nat) (hi : i < 100) : (zfill2 i).data.length = 2 := by
  have key : ∀ i : Fin 100, (zfill2 i.val).data.length = 2 := by decide
  exact key ⟨i, hi⟩

lemma isDigit_ne_slash {c : Char} (h : c.isDigit = true) : c ≠ '/' := by
  intro he; subst he; simp [Char.isDigit] at h

lemma isDigit_ne_dot {c : Char} (h : c.isDigit = true) : c ≠ '.' := by
  intro he; subst he; simp [Char.isDigit] at h

/-! ### Prefix, suffix and path-shape helpers -/

lemma prefixB_self_append (p r : List Char) : prefixB p (p ++ r) = true := by
  have h := prefixB_append_congr p [] r
  simpa using h

lemma suffixB_self (pat x : List Char) : suffixB pat (x ++ pat) = true := by
  unfold suffixB
  rw [List.reverse_append]
  exact prefixB_self_append _ _

lemma underDir_of_data (dd p : String) (r : List Char)
    (h : p.data = (dd.data ++ ['/']) ++ r) : underDir dd p = true := by
  unfold underDir
  rw [h]
  exact prefixB_self_append _ _

lemma underDir_append_head (dd s : String) (c : Char) (cs : List Char)
    (hs : s.data = c :: cs) (hc : c ≠ '/') : underDir dd (dd ++ s) = false := by
  unfold underDir
  rw [data_append, hs, show (['/'] : List Char) = '/' :: [] from rfl]
  rw [show dd.data ++ '/' :: ([] : List Char) = dd.data ++ ['/'] from rfl]
  rw [show dd.data ++ c :: cs = dd.data ++ ([c] ++ cs) from by simp]
  rw [show dd.data ++ ([c] ++ cs) = (dd.data ++ [c]) ++ cs from by simp]
  by_cases h : prefixB (dd.data ++ ['/']) (dd.data ++ [c] ++ cs) = true
  · exfalso
    have := take_of_prefixB _ _ h
    rw [List.length_append] at this
    rw [List.append_assoc, List.take_append] at this
    have hc' : List.take (List.length ['/']) ([c] ++ cs) = [c] := by
      simp
    rw [hc'] at this
    have := List.append_cancel_left this
    simp at this
    exact hc this
  · simpa using h

lemma data_ne_of_cons_ne (p : String) (x y : String) (cx cy : Char)
    (lx ly : List Char) (hx : x.data = cx :: lx) (hy : y.data = cy :: ly)
    (hne : cx ≠ cy) : p ++ x ≠ p ++ y := by
  intro h
  have hd := congrArg String.data h
  rw [data_append, data_append, hx, hy] at hd
  have := List.append_cancel_left hd
  simp only [List.cons.injEq] at this
  exact hne this.1

lemma self_ne_append (p s : String) (hs : s.data ≠ []) : p ≠ p ++ s := by
  intro h
  have hd := congrArg (fun t : String => t.data.length) h
  simp only [data_append, List.length_append] at hd
  have : s.data.length = 0 := by omega
  exact hs (List.length_eq_zero.1 this)

/-! ### Filesystem helper lemmas -/

lemma hasStr_iff (l : List String) (p : String) : hasStr l p = true ↔ p ∈ l := by
  simp only [hasStr, List.any_eq_true, beq_iff_eq]
  constructor
  · rintro ⟨x, hx, rfl⟩; exact hx
  · intro h; exact ⟨p, h, rfl⟩

lemma hasStr_false_iff (l : List String) (p : String) :
    hasStr l p = false ↔ p ∉ l := by
  rw [← Bool.not_eq_true, hasStr_iff]

/-- Create several files in order. -/
def addFiles (fs : FS) (names : List String) : FS :=
  names.foldl addFile fs

lemma addFile_fresh (fs : FS) (p : String) (h : p ∉ fs.files) :
    addFile fs p = { fs with files := fs.files ++ [p] } := by
  unfold addFile
  rw [if_neg]
  rw [Bool.not_eq_true, hasStr_false_iff]
  exact h

lemma addFiles_fresh : ∀ (names : List String) (fs : FS),
    names.Nodup → (∀ n ∈ names, n ∉ fs.files) →
    addFiles fs names = { fs with files := fs.files ++ names }
  | [], fs, _, _ => by simp [addFiles]
  | n :: rest, fs, hnd, hfresh => by
    have h1 : n ∉ fs.files := hfresh n (List.mem_cons_self ..)
    show addFiles (addFile fs n) rest = _
    rw [addFile_fresh fs n h1]
    rw [addFiles_fresh rest _ (List.Nodup.of_cons hnd) ?_]
    · simp
    · intro m hm
      simp only [List.mem_append, List.mem_singleton]
      rintro (hmf | rfl)
      · exact hfresh m (List.mem_cons_of_mem _ hm) hmf
      · exact (List.nodup_cons.1 hnd).1 hm

/-! ### Closed forms of the two `convert_to_vrt` loops -/

/-- The calls the explicit-bands loop performs, as a closed form (the
defaults are never used when every lookup succeeds). -/
def bandCallList (env : Env) (dd : String) : List Nat → Nat → List BandVrtCall
  | [], _ => []
  | b :: rest, order =>
    let sd := (dictGet env.subdatasets b).getD ("", "")
    { output := bandVrtName dd order b (lastColonPart sd.1),
      source := sd.1,
      scale := (get_metadata_item (env.metadata sd.1) "scale").getD "" } ::
      bandCallList env dd rest (order + 1)

/-- The calls the no-bands loop performs, as a closed form. -/
def allCallList (env : Env) (dd : String) :
    List (String × String) → Nat → List BandVrtCall
  | [], _ => []
  | sd :: rest, order =>
    { output := allVrtName dd order sd.1,
      source := sd.1,
      scale := (get_metadata_item (env.metadata sd.1) "scale").getD "" } ::
      allCallList env dd rest (order + 1)

lemma dictGet_mem {subs : List (String × String)} {b : Nat} {sd : String × String}
    (h : dictGet subs b = some sd) : sd ∈ subs := by
  unfold dictGet at h
  match b, h with
  | k + 1, h =>
    rw [List.getElem?_eq_some] at h
    obtain ⟨hk, rfl⟩ := h
    exact List.getElem_mem hk

lemma convertBands_ok (env : Env) (dd : String)
    (hscale : ∀ sd ∈ env.subdatasets,
      (get_metadata_item (env.metadata sd.1) "scale").isSome = true) :
    ∀ (bands : List Nat) (order : Nat) (fs : FS),
      (∀ b ∈ bands, (dictGet env.subdatasets b).isSome = true) →
      convertBands env dd bands order fs =
        .ok (addFiles fs ((bandCallList env dd bands order).map (·.output)),
             bandCallList env dd bands order)
  | [], order, fs, _ => by simp [convertBands, bandCallList, addFiles]
  | b :: rest, order, fs, hb => by
    obtain ⟨sd, hsd⟩ := Option.isSome_iff_exists.1 (hb b (List.mem_cons_self ..))
    obtain ⟨scale, hsc⟩ :=
      Option.isSome_iff_exists.1 (hscale sd (dictGet_mem hsd))
    have ih := convertBands_ok env dd hscale rest (order + 1)
      (addFile fs (bandVrtName dd order b (lastColonPart sd.1)))
      (fun x hx => hb x (List.mem_cons_of_mem _ hx))
    simp only [convertBands, hsd, hsc, ih, bandCallList, Option.getD_some]
    simp [addFiles]

lemma convertAll_ok (env : Env) (dd : String) :
    ∀ (subs : List (String × String)) (order : Nat) (fs : FS),
      (∀ sd ∈ subs,
        (get_metadata_item (env.metadata sd.1) "scale").isSome = true) →
      convertAll env dd subs order fs =
        .ok (addFiles fs ((allCallList env dd subs order).map (·.output)),
             allCallList env dd subs order)
  | [], order, fs, _ => by simp [convertAll, allCallList, addFiles]
  | sd :: rest, order, fs, hs => by
    obtain ⟨scale, hsc⟩ :=
      Option.isSome_iff_exists.1 (hs sd (List.mem_cons_self ..))
    have ih := convertAll_ok env dd rest (order + 1)
      (addFile fs (allVrtName dd order sd.1))
      (fun x hx => hs x (List.mem_cons_of_mem _ hx))
    simp only [convertAll, hsc, ih, allCallList]
    simp [addFiles]

/-! ### Shape of the generated VRT names -/

/-- Base name of a single-band VRT in the explicit-bands branch. -/
def bandBase (order band : Nat) (suffix : String) : String :=
  zfill2 order ++ "_Band" ++ zfill2 band ++ "_" ++ suffix ++ ".vrt"

/-- Base name of a single-band VRT in the no-bands branch. -/
def allBase (order : Nat) (conn : String) : String :=
  "Band" ++ zfill2 order ++ "_" ++ conn ++ ".vrt"

lemma bandVrtName_eq (dd : String) (o b : Nat) (s : String) :
    bandVrtName dd o b s = dd ++ "/" ++ bandBase o b s := by
  apply String.ext
  simp [bandVrtName, bandBase, data_append]

lemma allVrtName_eq (dd : String) (o : Nat) (conn : String) :
    allVrtName dd o conn = dd ++ "/" ++ allBase o conn := by
  apply String.ext
  simp [allVrtName, allBase, data_append]

lemma bandBase_data (o b : Nat) (s : String) :
    (bandBase o b s).data = (zfill2 o).data ++
      ("_Band".data ++ ((zfill2 b).data ++
        ("_".data ++ (s.data ++ ".vrt".data)))) := by
  simp [bandBase, data_append]

lemma allBase_data (o : Nat) (conn : String) :
    (allBase o conn).data = "Band".data ++ ((zfill2 o).data ++
      ("_".data ++ (conn.data ++ ".vrt".data))) := by
  simp [allBase, data_append]

lemma bandVrtName_data2 (dd : String) (o b : Nat) (s : String) :
    (bandVrtName dd o b s).data = (dd ++ "/").data ++
      ((zfill2 o).data ++ ("_Band".data ++ ((zfill2 b).data ++
        ("_".data ++ (s.data ++ ".vrt".data))))) := by
  simp [bandVrtName, data_append]

lemma bandVrtName_lt (dd : String) {o1 o2 : Nat} (b1 b2 : Nat) (s1 s2 : String)
    (ho2 : o2 < 100) (h : o1 < o2) :
    lexLtS (bandVrtName dd o1 b1 s1) (bandVrtName dd o2 b2 s2) = true := by
  have ho1 : o1 < 100 := lt_trans h ho2
  unfold lexLtS
  rw [bandVrtName_data2, bandVrtName_data2, lexLt_append_congr]
  exact lexLt_append_of_lt _ _ _ _
    (by rw [zfill2_len _ ho1, zfill2_len _ ho2]) (zfill2_lt _ _ ho1 ho2 h)

lemma allVrtName_data2 (dd : String) (o : Nat) (c : String) :
    (allVrtName dd o c).data = (dd ++ "/Band").data ++
      ((zfill2 o).data ++ ("_".data ++ (c.data ++ ".vrt".data))) := by
  simp [allVrtName, data_append]

lemma allVrtName_lt (dd : String) {o1 o2 : Nat} (c1 c2 : String)
    (ho2 : o2 < 100) (h : o1 < o2) :
    lexLtS (allVrtName dd o1 c1) (allVrtName dd o2 c2) = true := by
  have ho1 : o1 < 100 := lt_trans h ho2
  unfold lexLtS
  rw [allVrtName_data2, allVrtName_data2, lexLt_append_congr]
  exact lexLt_append_of_lt _ _ _ _
    (by rw [zfill2_len _ ho1, zfill2_len _ ho2]) (zfill2_lt _ _ ho1 ho2 h)

lemma bandCallList_chain (env : Env) (dd : String) :
    ∀ (bands : List Nat) (order : Nat), order + bands.length ≤ 100 →
      List.Chain' (fun a b => lexLtS a b = true)
        ((bandCallList env dd bands order).map (·.output))
  | [], _, _ => List.chain'_nil
  | [_], _, _ => by simp [bandCallList]
  | b1 :: b2 :: rest, order, h => by
    simp only [List.length_cons] at h
    have htail := bandCallList_chain env dd (b2 :: rest) (order + 1)
      (by simp only [List.length_cons]; omega)
    simp only [bandCallList, List.map_cons]
    refine List.Chain'.cons ?_ (by simpa [bandCallList] using htail)
    exact bandVrtName_lt dd _ _ _ _ (by omega) (by omega)

lemma allCallList_chain (env : Env) (dd : String) :
    ∀ (subs : List (String × String)) (order : Nat), order + subs.length ≤ 100 →
      List.Chain' (fun a b => lexLtS a b = true)
        ((allCallList env dd subs order).map (·.output))
  | [], _, _ => List.chain'_nil
  | [_], _, _ => by simp [allCallList]
  | s1 :: s2 :: rest, order, h => by
    simp only [List.length_cons] at h
    have htail := allCallList_chain env dd (s2 :: rest) (order + 1)
      (by simp only [List.length_cons]; omega)
    simp only [allCallList, List.map_cons]
    refine List.Chain'.cons ?_ (by simpa [allCallList] using htail)
    exact allVrtName_lt dd _ _ (by omega) (by omega)

/-! ### Glob membership of the generated names -/

lemma drop_append_self : ∀ (a b : List Char), (a ++ b).drop a.length = b
  | [], _ => rfl
  | _ :: as, b => drop_append_self as b

lemma join_data (dd base : String) :
    (dd ++ "/" ++ base).data = (dd.data ++ ['/']) ++ base.data := by
  simp [data_append]

lemma globMatch_parts (dd ext base : String)
    (hslash : ∀ c ∈ base.data, c ≠ '/')
    (hhead : ∃ c cs, base.data = c :: cs ∧ c ≠ '.')
    (hsuffix : ∃ x : List Char, base.data = x ++ ('.' :: ext.data)) :
    globMatch dd ext (dd ++ "/" ++ base) = true := by
  have h1 : prefixB (dd.data ++ ['/'])
      ((dd.data ++ ['/']) ++ base.data) = true := prefixB_self_append _ _
  have hdrop : ((dd.data ++ ['/']) ++ base.data).drop (dd.data.length + 1) =
      base.data := by
    have hl : (dd.data ++ ['/']).length = dd.data.length + 1 := by simp
    rw [← hl, drop_append_self]
  have h2 : base.data.any (fun c => c == '/') = false := by
    rw [← Bool.not_eq_true, List.any_eq_true]
    rintro ⟨c, hc, hc2⟩
    exact hslash c hc (by simpa using hc2)
  obtain ⟨c, cs, hbase, hcdot⟩ := hhead
  have h3 : prefixB ['.'] base.data = false := by
    rw [hbase]
    simp only [prefixB, Bool.and_true]
    exact beq_eq_false_iff_ne.2 (fun he => hcdot he.symm)
  obtain ⟨x, hx⟩ := hsuffix
  have h4 : suffixB ('.' :: ext.data) base.data = true := by
    rw [hx]
    exact suffixB_self _ _
  unfold globMatch
  rw [join_data, h1, hdrop]
  simp [h2, h3, h4]

lemma underDir_join (dd base : String) : underDir dd (dd ++ "/" ++ base) = true :=
  underDir_of_data _ _ _ (join_data dd base)

lemma bandBase_slash (o b : Nat) (s : String) (hs : ∀ c ∈ s.data, c ≠ '/') :
    ∀ c ∈ (bandBase o b s).data, c ≠ '/' := by
  intro c hc
  rw [bandBase_data] at hc
  simp only [List.mem_append] at hc
  have hBand : ∀ c ∈ "_Band".data, c ≠ '/' := by decide
  have hU : ∀ c ∈ "_".data, c ≠ '/' := by decide
  have hV : ∀ c ∈ ".vrt".data, c ≠ '/' := by decide
  rcases hc with hc | hc | hc | hc | hc | hc
  · exact isDigit_ne_slash (zfill2_digits o c hc)
  · exact hBand c hc
  · exact isDigit_ne_slash (zfill2_digits b c hc)
  · exact hU c hc
  · exact hs c hc
  · exact hV c hc

lemma bandBase_head (o b : Nat) (s : String) :
    ∃ c cs, (bandBase o b s).data = c :: cs ∧ c ≠ '.' := by
  obtain ⟨c, cs, hz, hd⟩ := zfill2_head_digit o
  refine ⟨c, cs ++ ("_Band".data ++ ((zfill2 b).data ++
    ("_".data ++ (s.data ++ ".vrt".data)))), ?_, isDigit_ne_dot hd⟩
  rw [bandBase_data, hz]
  rfl

lemma bandBase_suffix (o b : Nat) (s : String) :
    ∃ x : List Char, (bandBase o b s).data = x ++ ('.' :: "vrt".data) := by
  refine ⟨(zfill2 o ++ "_Band" ++ zfill2 b ++ "_" ++ s).data, ?_⟩
  rw [show ('.' :: "vrt".data) = ".vrt".data from rfl, ← data_append]
  rfl

lemma allBase_slash (o : Nat) (conn : String)
    (hs : ∀ c ∈ conn.data, c ≠ '/') :
    ∀ c ∈ (allBase o conn).data, c ≠ '/' := by
  intro c hc
  rw [allBase_data] at hc
  simp only [List.mem_append] at hc
  have hBand : ∀ c ∈ "Band".data, c ≠ '/' := by decide
  have hU : ∀ c ∈ "_".data, c ≠ '/' := by decide
  have hV : ∀ c ∈ ".vrt".data, c ≠ '/' := by decide
  rcases hc with hc | hc | hc | hc | hc
  · exact hBand c hc
  · exact isDigit_ne_slash (zfill2_digits o c hc)
  · exact hU c hc
  · exact hs c hc
  · exact hV c hc

lemma allBase_head (o : Nat) (conn : String) :
    ∃ c cs, (allBase o conn).data = c :: cs ∧ c ≠ '.' := by
  refine ⟨'B', "and".data ++ ((zfill2 o).data ++
    ("_".data ++ (conn.data ++ ".vrt".data))), ?_, by decide⟩
  rw [allBase_data]
  rfl

lemma allBase_suffix (o : Nat) (conn : String) :
    ∃ x : List Char, (allBase o conn).data = x ++ ('.' :: "vrt".data) := by
  refine ⟨("Band" ++ zfill2 o ++ "_" ++ conn).data, ?_⟩
  rw [show ('.' :: "vrt".data) = ".vrt".data from rfl, ← data_append]
  rfl

lemma bandVrtName_glob (dd : String) (o b : Nat) (s : String)
    (hs : ∀ c ∈ s.data, c ≠ '/') :
    globMatch dd "vrt" (bandVrtName dd o b s) = true := by
  rw [bandVrtName_eq]
  exact globMatch_parts dd "vrt" _ (bandBase_slash o b s hs)
    (bandBase_head o b s) (bandBase_suffix o b s)

lemma allVrtName_glob (dd : String) (o : Nat) (conn : String)
    (hs : ∀ c ∈ conn.data, c ≠ '/') :
    globMatch dd "vrt" (allVrtName dd o conn) = true := by
  rw [allVrtName_eq]
  exact globMatch_parts dd "vrt" _ (allBase_slash o conn hs)
    (allBase_head o conn) (allBase_suffix o conn)

lemma underDir_of_globMatch {dd ext p : String}
    (h : globMatch dd ext p = true) : underDir dd p = true := by
  unfold globMatch at h
  rw [Bool.and_eq_true] at h
  exact h.1

lemma bandCallList_outputs_glob (env : Env) (dd : String)
    (hfrag : ∀ sd ∈ env.subdatasets, ∀ c ∈ (lastColonPart sd.1).data, c ≠ '/') :
    ∀ (bands : List Nat) (order : Nat),
      (∀ b ∈ bands, (dictGet env.subdatasets b).isSome = true) →
      ∀ x ∈ (bandCallList env dd bands order).map (·.output),
        globMatch dd "vrt" x = true
  | [], _, _, x, hx => by simp [bandCallList] at hx
  | b :: rest, order, hb, x, hx => by
    obtain ⟨sd, hsd⟩ := Option.isSome_iff_exists.1 (hb b (List.mem_cons_self ..))
    simp only [bandCallList, hsd, Option.getD_some, List.map_cons,
      List.mem_cons] at hx
    rcases hx with rfl | hx
    · exact bandVrtName_glob dd order b _ (hfrag sd (dictGet_mem hsd))
    · exact bandCallList_outputs_glob env dd hfrag rest (order + 1)
        (fun y hy => hb y (List.mem_cons_of_mem _ hy)) x
        (by simpa using hx)

lemma allCallList_outputs_glob (env : Env) (dd : String)
    (hconn : ∀ sd ∈ env.subdatasets, ∀ c ∈ (sd.1 : String).data, c ≠ '/') :
    ∀ (subs : List (String × String)) (order : Nat),
      (∀ sd ∈ subs, sd ∈ env.subdatasets) →
      ∀ x ∈ (allCallList env dd subs order).map (·.output),
        globMatch dd "vrt" x = true
  | [], _, _, x, hx => by simp [allCallList] at hx
  | sd :: rest, order, hsub, x, hx => by
    simp only [allCallList, List.map_cons, List.mem_cons] at hx
    rcases hx with rfl | hx
    · exact allVrtName_glob dd order sd.1
        (hconn sd (hsub sd (List.mem_cons_self ..)))
    · exact allCallList_outputs_glob env dd hconn rest (order + 1)
        (fun y hy => hsub y (List.mem_cons_of_mem _ hy)) x
        (by simpa using hx)

lemma globMatch_false_of_underDir_false {dd p : String} (ext : String)
    (h : underDir dd p = false) : globMatch dd ext p = false := by
  cases hg : globMatch dd ext p
  · rfl
  · rw [underDir_of_globMatch hg] at h
    cases h

lemma list_files_of_fresh (fs0files dirs0 : List String) (names : List String)
    (dd : String)
    (h0 : ∀ f ∈ fs0files, globMatch dd "vrt" f = false)
    (hn : ∀ n ∈ names, globMatch dd "vrt" n = true) :
    list_files ⟨fs0files ++ names, dirs0⟩ dd "vrt" = names := by
  unfold list_files
  show (fs0files ++ names).filter (globMatch dd "vrt") = names
  rw [List.filter_append]
  rw [List.filter_eq_nil_iff.2 (fun f hf => by simp [h0 f hf]),
      List.filter_eq_self.2 hn]
  rfl

/-! ### Path equations and remaining helpers for the run lemma -/

lemma vrtOutputPath_eq (stem : String) (h : containsStr ".hdf" stem = false) :
    vrtOutputPath (stem ++ ".hdf") = stem ++ ".vrt" :=
  pyReplace_stem_ext stem ".hdf" ".vrt" '.' "hdf".data rfl (by decide) h

lemma tiffOutputPath_eq (stem : String)
    (h1 : containsStr ".hdf" stem = false)
    (h2 : containsStr ".vrt" stem = false) :
    tiffOutputPath (stem ++ ".hdf") = stem ++ ".tif" := by
  unfold tiffOutputPath
  rw [vrtOutputPath_eq stem h1]
  exact pyReplace_stem_ext stem ".vrt" ".tif" '.' "vrt".data rfl (by decide) h2

lemma append_ne_of_ne (p x y : String) (h : x.data ≠ y.data) :
    p ++ x ≠ p ++ y := by
  intro he
  apply h
  apply @List.append_cancel_left _ p.data
  rw [← data_append, ← data_append, he]

lemma not_mem_of_underDir_ne {dd p : String} (l : List String)
    (hl : ∀ x ∈ l, underDir dd x = true) (hp : underDir dd p = false) :
    p ∉ l := by
  intro h
  rw [hl p h] at hp
  cases hp

lemma filter_ne_of_not_mem (l : List String) (p : String) (h : p ∉ l) :
    l.filter (fun q => !(q == p)) = l := by
  apply List.filter_eq_self.2
  intro a ha
  simp only [Bool.not_eq_true', beq_eq_false_iff_ne, ne_eq]
  rintro rfl
  exact h ha

lemma hasStr_append (a b : List String) (p : String) :
    hasStr (a ++ b) p = (hasStr a p || hasStr b p) := by
  simp [hasStr, List.any_append]

lemma hasStr_singleton (x p : String) : hasStr [x] p = (x == p) := by
  simp [hasStr]

lemma overwriteStep_nil (env : Env) (fs : FS) (ow : Bool)
    (h : list_files fs env.directory "tif" = []) :
    overwriteStep env fs ow = fs := by
  unfold overwriteStep
  split
  · rw [h]
  · rfl

lemma pathExists_false_parts {fs : FS} {p : String}
    (h : pathExists fs p = false) :
    hasStr fs.files p = false ∧ hasStr fs.dirs p = false := by
  unfold pathExists at h
  exact ⟨(Bool.or_eq_false_iff.1 h).1, (Bool.or_eq_false_iff.1 h).2⟩

/-- Closed form of the band-name metadata list (lines 175-182); the default
is never used when every connection string has at least five colon-parts. -/
def labelList : List (String × String) → Nat → List String
  | [], _ => []
  | sd :: rest, i =>
    (zfill2 i ++ ":" ++ ((colonParts sd.1)[4]?.getD "")) :: labelList rest (i + 1)

lemma bandNamesOpt_eq : ∀ (subs : List (String × String)) (i : Nat),
    (∀ sd ∈ subs, 5 ≤ (colonParts sd.1).length) →
    bandNamesOpt subs i = some (labelList subs i)
  | [], _, _ => rfl
  | sd :: rest, i, h => by
    have h4 : 4 < (colonParts sd.1).length := h sd (List.mem_cons_self ..)
    have hget : (colonParts sd.1)[4]? = some ((colonParts sd.1).get ⟨4, h4⟩) :=
      List.getElem?_eq_getElem h4
    have ih := bandNamesOpt_eq rest (i + 1)
      (fun x hx => h x (List.mem_cons_of_mem _ hx))
    simp only [bandNamesOpt, hget, ih, labelList, Option.getD_some]

lemma filter_not_under_all (dd : String) (l : List String)
    (h : ∀ x ∈ l, underDir dd x = true) :
    l.filter (fun p => !underDir dd p) = [] := by
  apply List.filter_eq_nil_iff.2
  intro a ha
  simp [h a ha]

lemma filter_not_under_none (dd : String) (l : List String)
    (h : ∀ x ∈ l, underDir dd x = false) :
    l.filter (fun p => !underDir dd p) = l := by
  apply List.filter_eq_self.2
  intro a ha
  simp [h a ha]

/-! ### Characterization of a clean successful run -/

lemma create_output_directory_fresh (fs : FS) (stem : String)
    (hsplit : splitextStem (stem ++ ".hdf") = stem)
    (hexist : pathExists fs stem = false) :
    create_output_directory fs (stem ++ ".hdf") =
      ({ files := fs.files, dirs := fs.dirs ++ [stem] }, stem) := by
  simp only [create_output_directory]
  rw [hsplit, hexist]
  simp

/-- What one clean run of the pipeline after overwrite handling does, for
any band-VRT call list `calls` that `convert_to_vrt` produces on a
filesystem that does not yet hold any of the run's outputs. -/
lemma hdf2tifRest_spec (env : Env) (fs0 : FS) (stem : String) (bands : List Nat)
    (reproject : Bool) (calls : List BandVrtCall)
    (hconv : convert_to_vrt env env.subdatasets stem bands
        { files := fs0.files, dirs := fs0.dirs ++ [stem] } =
      .ok (addFiles { files := fs0.files, dirs := fs0.dirs ++ [stem] }
            (calls.map (·.output)), calls))
    (hglob : ∀ x ∈ calls.map (·.output), globMatch stem "vrt" x = true)
    (hchain : List.Chain' (fun a b => lexLtS a b = true) (calls.map (·.output)))
    (hsplit : splitextStem (stem ++ ".hdf") = stem)
    (hhdf : containsStr ".hdf" stem = false)
    (hvrts : containsStr ".vrt" stem = false)
    (hexist : pathExists fs0 stem = false)
    (hfiles : ∀ f ∈ fs0.files, underDir stem f = false)
    (hdirs : ∀ d ∈ fs0.dirs, underDir stem d = false)
    (hvrt0 : (stem ++ ".vrt") ∉ fs0.files)
    (htifd : (stem ++ ".tif") ∉ fs0.dirs)
    (hparts : ∀ sd ∈ env.subdatasets, 5 ≤ (colonParts sd.1).length) :
    hdf2tifRest env fs0 (stem ++ ".hdf") bands reproject =
      .ok { fs := { files := if hasStr fs0.files (stem ++ ".tif") then fs0.files
                             else fs0.files ++ [stem ++ ".tif"],
                    dirs := fs0.dirs },
            bandVrts := calls,
            mergeOutput := stem ++ ".vrt",
            mergeInputs := calls.map (·.output),
            mergeSeparate := true,
            warp := if hasStr fs0.files (stem ++ ".tif") then WarpAction.skipped
                    else WarpAction.ran
                      (if reproject then some sinuWarpOptions else none),
            metadataTarget := stem ++ ".tif",
            metadataValue := pyStrList (labelList env.subdatasets 1),
            ret := stem ++ ".tif" } := by
  set names := calls.map (·.output) with hnamesdef
  have hunder : ∀ x ∈ names, underDir stem x = true :=
    fun x hx => underDir_of_globMatch (hglob x hx)
  have hfresh : ∀ x ∈ names, x ∉ fs0.files := by
    intro x hx hmem
    have h1 := hunder x hx
    rw [hfiles x hmem] at h1
    cases h1
  have hnd : names.Nodup := chain_lexLt_nodup hchain
  have hud_tif : underDir stem (stem ++ ".tif") = false :=
    underDir_append_head stem ".tif" '.' "tif".data rfl (by decide)
  have hud_vrt : underDir stem (stem ++ ".vrt") = false :=
    underDir_append_head stem ".vrt" '.' "vrt".data rfl (by decide)
  have hvrt_nn : (stem ++ ".vrt") ∉ names :=
    not_mem_of_underDir_ne names hunder hud_vrt
  have htif_nn : (stem ++ ".tif") ∉ names :=
    not_mem_of_underDir_ne names hunder hud_tif
  have hvt : (stem ++ ".vrt") ≠ (stem ++ ".tif") :=
    append_ne_of_ne stem ".vrt" ".tif" (by decide)
  have hstem_ne_tif : stem ≠ stem ++ ".tif" :=
    self_ne_append stem ".tif" (by decide)
  have hsd := pathExists_false_parts hexist
  have hstem_nd : stem ∉ fs0.dirs := (hasStr_false_iff _ _).1 hsd.2
  have hcreate := create_output_directory_fresh fs0 stem hsplit hexist
  have haddf : addFiles { files := fs0.files, dirs := fs0.dirs ++ [stem] } names =
      { files := fs0.files ++ names, dirs := fs0.dirs ++ [stem] } := by
    rw [addFiles_fresh names { files := fs0.files, dirs := fs0.dirs ++ [stem] }
      hnd hfresh]
  have hlf : list_files { files := fs0.files ++ names, dirs := fs0.dirs ++ [stem] }
      stem "vrt" = names :=
    list_files_of_fresh fs0.files (fs0.dirs ++ [stem]) names stem
      (fun f hf => globMatch_false_of_underDir_false _ (hfiles f hf)) hglob
  have hsort : pySorted names = names := pySorted_id names hchain
  have hvo : vrtOutputPath (stem ++ ".hdf") = stem ++ ".vrt" :=
    vrtOutputPath_eq stem hhdf
  have hto : tiffOutputPath (stem ++ ".hdf") = stem ++ ".tif" :=
    tiffOutputPath_eq stem hhdf hvrts
  have hvrtnm : (stem ++ ".vrt") ∉ fs0.files ++ names := by
    simp only [List.mem_append]
    rintro (h | h)
    · exact hvrt0 h
    · exact hvrt_nn h
  have hadd4 : addFile { files := fs0.files ++ names, dirs := fs0.dirs ++ [stem] }
      (stem ++ ".vrt") =
      { files := (fs0.files ++ names) ++ [stem ++ ".vrt"],
        dirs := fs0.dirs ++ [stem] } := by
    rw [addFile_fresh _ _ hvrtnm]
  have hpe : pathExists
      { files := (fs0.files ++ names) ++ [stem ++ ".vrt"],
        dirs := fs0.dirs ++ [stem] } (stem ++ ".tif") =
      hasStr fs0.files (stem ++ ".tif") := by
    unfold pathExists
    simp only [hasStr_append, hasStr_singleton]
    rw [(hasStr_false_iff _ _).2 htif_nn, (hasStr_false_iff _ _).2 htifd,
        beq_eq_false_iff_ne.2 hvt, beq_eq_false_iff_ne.2 hstem_ne_tif]
    simp
  have hlab := bandNamesOpt_eq env.subdatasets 1 hparts
  have hrm_vrt_t : ((fs0.files ++ names) ++ [stem ++ ".vrt"]).filter
      (fun q => !(q == (stem ++ ".vrt"))) = fs0.files ++ names := by
    rw [List.filter_append, List.filter_append,
        filter_ne_of_not_mem _ _ hvrt0, filter_ne_of_not_mem _ _ hvrt_nn]
    simp
  have hrm_vrt_f : (((fs0.files ++ names) ++ [stem ++ ".vrt"]) ++
      [stem ++ ".tif"]).filter (fun q => !(q == (stem ++ ".vrt"))) =
      (fs0.files ++ names) ++ [stem ++ ".tif"] := by
    rw [List.filter_append, hrm_vrt_t]
    simp [beq_eq_false_iff_ne.2 (Ne.symm hvt)]
  have htree_files_t : (fs0.files ++ names).filter
      (fun p => !underDir stem p) = fs0.files := by
    rw [List.filter_append, filter_not_under_none stem _ hfiles,
        filter_not_under_all stem _ hunder]
    simp
  have htree_files_f : ((fs0.files ++ names) ++ [stem ++ ".tif"]).filter
      (fun p => !underDir stem p) = fs0.files ++ [stem ++ ".tif"] := by
    rw [List.filter_append, htree_files_t]
    simp [hud_tif]
  have htree_dirs : (fs0.dirs ++ [stem]).filter
      (fun p => !(p == stem || underDir stem p)) = fs0.dirs := by
    rw [List.filter_append]
    rw [List.filter_eq_self.2 ?_]
    · simp
    · intro d hd
      have h1 : (d == stem) = false :=
        beq_eq_false_iff_ne.2 (fun he => hstem_nd (he ▸ hd))
      simp [h1, hdirs d hd]
  unfold hdf2tifRest
  rw [hcreate]
  simp only [hconv, haddf, hlf, hsort, hvo, hto, hadd4, hpe, hlab,
    removeFile, removeTree]
  by_cases hcond : hasStr fs0.files (stem ++ ".tif") = true
  · simp only [hcond, if_true]
    rw [hrm_vrt_t]
    rw [htree_files_t, htree_dirs]
  · have hcond' : hasStr fs0.files (stem ++ ".tif") = false := by
      cases h : hasStr fs0.files (stem ++ ".tif")
      · rfl
      · exact absurd h hcond
    have htif_nm : (stem ++ ".tif") ∉ (fs0.files ++ names) ++ [stem ++ ".vrt"] := by
      simp only [List.mem_append, List.mem_singleton]
      rintro ((h | h) | h)
      · exact ((hasStr_false_iff _ _).1 hcond') h
      · exact htif_nn h
      · exact hvt h.symm
    have hadd5 : addFile
        { files := (fs0.files ++ names) ++ [stem ++ ".vrt"],
          dirs := fs0.dirs ++ [stem] } (stem ++ ".tif") =
        { files := ((fs0.files ++ names) ++ [stem ++ ".vrt"]) ++ [stem ++ ".tif"],
          dirs := fs0.dirs ++ [stem] } := by
      rw [addFile_fresh _ _ htif_nm]
    simp only [hcond', if_false, Bool.false_eq_true, hadd5]
    rw [hrm_vrt_f]
    rw [htree_files_f, htree_dirs]

lemma dictGet_isSome {subs : List (String × String)} {b : Nat}
    (h1 : 1 ≤ b) (h2 : b ≤ subs.length) : (dictGet subs b).isSome = true := by
  match b, h1, h2 with
  | k + 1, _, h2 =>
    show (subs[k]?).isSome = true
    rw [List.getElem?_eq_getElem (by omega)]
    rfl

lemma isEmpty_false_of_ne_nil {l : List Nat} (h : l ≠ []) :
    l.isEmpty = false := by
  cases l with
  | nil => exact absurd rfl h
  | cons a as => rfl

/-- A clean run with an explicit band list. -/
lemma hdf2tif_spec_bands (env : Env) (fs0 : FS) (stem : String)
    (bands : List Nat) (ow reproject : Bool)
    (how : list_files fs0 env.directory "tif" = [])
    (hne : bands ≠ [])
    (hvalid : ∀ b ∈ bands, 1 ≤ b ∧ b ≤ env.subdatasets.length)
    (hlen : bands.length ≤ 99)
    (hscale : ∀ sd ∈ env.subdatasets,
      (get_metadata_item (env.metadata sd.1) "scale").isSome = true)
    (hfrag : ∀ sd ∈ env.subdatasets, ∀ c ∈ (lastColonPart sd.1).data, c ≠ '/')
    (hsplit : splitextStem (stem ++ ".hdf") = stem)
    (hhdf : containsStr ".hdf" stem = false)
    (hvrts : containsStr ".vrt" stem = false)
    (hexist : pathExists fs0 stem = false)
    (hfiles : ∀ f ∈ fs0.files, underDir stem f = false)
    (hdirs : ∀ d ∈ fs0.dirs, underDir stem d = false)
    (hvrt0 : (stem ++ ".vrt") ∉ fs0.files)
    (htifd : (stem ++ ".tif") ∉ fs0.dirs)
    (hparts : ∀ sd ∈ env.subdatasets, 5 ≤ (colonParts sd.1).length) :
    hdf2tif env fs0 (stem ++ ".hdf") ow bands reproject =
      .ok { fs := { files := if hasStr fs0.files (stem ++ ".tif") then fs0.files
                             else fs0.files ++ [stem ++ ".tif"],
                    dirs := fs0.dirs },
            bandVrts := bandCallList env stem bands 1,
            mergeOutput := stem ++ ".vrt",
            mergeInputs := (bandCallList env stem bands 1).map (·.output),
            mergeSeparate := true,
            warp := if hasStr fs0.files (stem ++ ".tif") then WarpAction.skipped
                    else WarpAction.ran
                      (if reproject then some sinuWarpOptions else none),
            metadataTarget := stem ++ ".tif",
            metadataValue := pyStrList (labelList env.subdatasets 1),
            ret := stem ++ ".tif" } := by
  have hvalidSome : ∀ b ∈ bands, (dictGet env.subdatasets b).isSome = true :=
    fun b hb => dictGet_isSome (hvalid b hb).1 (hvalid b hb).2
  have hconv : convert_to_vrt env env.subdatasets stem bands
      { files := fs0.files, dirs := fs0.dirs ++ [stem] } =
      .ok (addFiles { files := fs0.files, dirs := fs0.dirs ++ [stem] }
            ((bandCallList env stem bands 1).map (·.output)),
           bandCallList env stem bands 1) := by
    unfold convert_to_vrt
    rw [isEmpty_false_of_ne_nil hne]
    simp only [Bool.false_eq_true, if_false]
    exact convertBands_ok env stem hscale bands 1 _ hvalidSome
  unfold hdf2tif
  rw [overwriteStep_nil env fs0 ow how]
  exact hdf2tifRest_spec env fs0 stem bands reproject
    (bandCallList env stem bands 1) hconv
    (bandCallList_outputs_glob env stem hfrag bands 1 hvalidSome)
    (bandCallList_chain env stem bands 1 (by omega))
    hsplit hhdf hvrts hexist hfiles hdirs hvrt0 htifd hparts

/-- A clean run with no band list: every subdataset is processed. -/
lemma hdf2tif_spec_all (env : Env) (fs0 : FS) (stem : String)
    (ow reproject : Bool)
    (how : list_files fs0 env.directory "tif" = [])
    (hlen : env.subdatasets.length ≤ 99)
    (hscale : ∀ sd ∈ env.subdatasets,
      (get_metadata_item (env.metadata sd.1) "scale").isSome = true)
    (hconn : ∀ sd ∈ env.subdatasets, ∀ c ∈ (sd.1 : String).data, c ≠ '/')
    (hsplit : splitextStem (stem ++ ".hdf") = stem)
    (hhdf : containsStr ".hdf" stem = false)
    (hvrts : containsStr ".vrt" stem = false)
    (hexist : pathExists fs0 stem = false)
    (hfiles : ∀ f ∈ fs0.files, underDir stem f = false)
    (hdirs : ∀ d ∈ fs0.dirs, underDir stem d = false)
    (hvrt0 : (stem ++ ".vrt") ∉ fs0.files)
    (htifd : (stem ++ ".tif") ∉ fs0.dirs)
    (hparts : ∀ sd ∈ env.subdatasets, 5 ≤ (colonParts sd.1).length) :
    hdf2tif env fs0 (stem ++ ".hdf") ow [] reproject =
      .ok { fs := { files := if hasStr fs0.files (stem ++ ".tif") then fs0.files
                             else fs0.files ++ [stem ++ ".tif"],
                    dirs := fs0.dirs },
            bandVrts := allCallList env stem env.subdatasets 1,
            mergeOutput := stem ++ ".vrt",
            mergeInputs := (allCallList env stem env.subdatasets 1).map (·.output),
            mergeSeparate := true,
            warp := if hasStr fs0.files (stem ++ ".tif") then WarpAction.skipped
                    else WarpAction.ran
                      (if reproject then some sinuWarpOptions else none),
            metadataTarget := stem ++ ".tif",
            metadataValue := pyStrList (labelList env.subdatasets 1),
            ret := stem ++ ".tif" } := by
  have hconv : convert_to_vrt env env.subdatasets stem []
      { files := fs0.files, dirs := fs0.dirs ++ [stem] } =
      .ok (addFiles { files := fs0.files, dirs := fs0.dirs ++ [stem] }
            ((allCallList env stem env.subdatasets 1).map (·.output)),
           allCallList env stem env.subdatasets 1) := by
    unfold convert_to_vrt
    simp only [List.isEmpty_nil, if_true]
    exact convertAll_ok env stem env.subdatasets 1 _ hscale
  unfold hdf2tif
  rw [overwriteStep_nil env fs0 ow how]
  exact hdf2tifRest_spec env fs0 stem [] reproject
    (allCallList env stem env.subdatasets 1) hconv
    (allCallList_outputs_glob env stem hconn env.subdatasets 1 (fun sd h => h))
    (allCallList_chain env stem env.subdatasets 1 (by omega))
    hsplit hhdf hvrts hexist hfiles hdirs hvrt0 htifd hparts

/-! ### XML model for `modify_vrt` -/

/-- An XML element as ElementTree presents it: tag, attribute list, text,
and the list of direct children. -/
inductive XElem where
  | mk (tag : String) (attrs : List (String × String)) (text : Option String)
      (children : List XElem)

def XElem.tag : XElem → String
  | .mk t _ _ _ => t

def XElem.attrs : XElem → List (String × String)
  | .mk _ a _ _ => a

def XElem.text : XElem → Option String
  | .mk _ _ t _ => t

def XElem.children : XElem → List XElem
  | .mk _ _ _ c => c

/-- `element.find(tag)`: the first direct child carrying the tag. -/
def findChild (e : XElem) (t : String) : Option XElem :=
  e.children.find? (fun c => c.tag == t)

/-- `element.get(key)` on the attribute dictionary. -/
def getAttr (e : XElem) (k : String) : Option String :=
  (e.attrs.find? (fun kv => kv.1 == k)).map Prod.snd

/-- `element.set(key, value)`: replace the value if the key is present,
append the pair otherwise. -/
def setAttrList (attrs : List (String × String)) (k v : String) :
    List (String × String) :=
  if attrs.any (fun kv => kv.1 == k) then
    attrs.map (fun kv => if kv.1 == k then (kv.1, v) else kv)
  else attrs ++ [(k, v)]

def XElem.setAttr (e : XElem) (k v : String) : XElem :=
  .mk e.tag (setAttrList e.attrs k v) e.text e.children

/-- `SubElement(parent, tag)` appends a child at the end. -/
def XElem.appendChild (e c : XElem) : XElem :=
  .mk e.tag e.attrs e.text (e.children ++ [c])

/-- Replace the first child satisfying `p` by its image under `f`. -/
def replaceFirst (p : XElem → Bool) (f : XElem → XElem) :
    List XElem → List XElem
  | [] => []
  | c :: cs => if p c then f c :: cs else c :: replaceFirst p f cs

def XElem.replaceChild (e : XElem) (t : String) (f : XElem → XElem) : XElem :=
  .mk e.tag e.attrs e.text (replaceFirst (fun c => c.tag == t) f e.children)

/-- The `ScaleRatio` element appended by `modify_vrt`, with the scale value
as its text. -/
def scaleRatioElem (scale : String) : XElem :=
  .mk "ScaleRatio" [] (some scale) []

/-- `modify_vrt` (lines 62-86) on the parsed tree: set the first raster
band's `dataType` attribute to `"Float32"` and append a `ScaleRatio` child
under that band's first `ComplexSource`; `none` models the unhandled
exception raised when either element is absent. -/
def modify_vrt (root : XElem) (scale : String) : Option XElem :=
  match findChild root "VRTRasterBand" with
  | none => none
  | some band =>
    match findChild band "ComplexSource" with
    | none => none
    | some _ =>
      some (root.replaceChild "VRTRasterBand" (fun b =>
        (b.setAttr "dataType" "Float32").replaceChild "ComplexSource"
          (fun s => s.appendChild (scaleRatioElem scale))))

/-- `modify_vrt` at the file level: the patched tree is written back under
the same path (`doc.write(vrt)`), leaving every other file untouched. -/
def modify_vrt_file (store : List (String × XElem)) (vrt : String)
    (scale : String) : Option (List (String × XElem)) :=
  match store.find? (fun kv => kv.1 == vrt) with
  | none => none
  | some kv =>
    match modify_vrt kv.2 scale with
    | none => none
    | some root' =>
      some (store.map (fun kv2 => if kv2.1 == vrt then (kv2.1, root') else kv2))

/-- The first raster band reported for a possibly-patched tree. -/
def obsBand (r : Option XElem) : Option XElem :=
  r.bind (fun e => findChild e "VRTRasterBand")

/-- The declared data type of the first raster band. -/
def obsDataType (r : Option XElem) : Option String :=
  (obsBand r).bind (fun b => getAttr b "dataType")

/-- The children of the first raster band's first `ComplexSource`. -/
def obsSourceChildren (r : Option XElem) : Option (List XElem) :=
  ((obsBand r).bind (fun b => findChild b "ComplexSource")).map XElem.children

lemma find?_replaceFirst (p : XElem → Bool) (f : XElem → XElem) :
    ∀ (l : List XElem) (c : XElem), l.find? p = some c → p (f c) = true →
      (replaceFirst p f l).find? p = some (f c)
  | [], c, h, _ => by simp at h
  | x :: xs, c, h, hf => by
    by_cases hx : p x = true
    · rw [List.find?_cons_of_pos _ hx] at h
      injection h with h
      subst h
      simp [replaceFirst, hx, List.find?_cons_of_pos _ hf]
    · have hx' : ¬ p x = true := hx
      rw [List.find?_cons_of_neg _ hx'] at h
      have ih := find?_replaceFirst p f xs c h hf
      have hxf : p x = false := by
        cases hpx : p x
        · rfl
        · exact absurd hpx hx
      simp [replaceFirst, hxf, List.find?_cons_of_neg _ hx', ih]

lemma find?_setAttrList (k v : String) :
    ∀ attrs : List (String × String),
      (setAttrList attrs k v).find? (fun kv => kv.1 == k) = some (k, v)
  | [] => by simp [setAttrList]
  | (a, b) :: rest => by
    by_cases hak : a = k
    · subst hak
      have hany : ((a, b) :: rest).any (fun kv => kv.1 == a) = true := by
        simp [List.any_cons]
      simp [setAttrList, hany]
    · have hne : (a == k) = false := beq_eq_false_iff_ne.2 hak
      have ih := find?_setAttrList k v rest
      by_cases hany : rest.any (fun kv => kv.1 == k) = true
      · have hany2 : ((a, b) :: rest).any (fun kv => kv.1 == k) = true := by
          simp [List.any_cons, hany]
        have ihm : setAttrList rest k v =
            rest.map (fun kv => if kv.1 == k then (kv.1, v) else kv) := by
          simp [setAttrList, hany]
        simp only [setAttrList, hany2, if_true, List.map_cons, hne,
          Bool.false_eq_true, if_false]
        rw [List.find?_cons_of_neg _ (by simp [hne])]
        rw [← ihm, ih]
      · have hany' : rest.any (fun kv => kv.1 == k) = false := by
          cases h : rest.any (fun kv => kv.1 == k)
          · rfl
          · exact absurd h hany
        have hany2 : ((a, b) :: rest).any (fun kv => kv.1 == k) = false := by
          simp [List.any_cons, hany', hne]
        have ihm : setAttrList rest k v = rest ++ [(k, v)] := by
          simp [setAttrList, hany']
        simp only [setAttrList, hany2, Bool.false_eq_true, if_false,
          List.cons_append]
        rw [List.find?_cons_of_neg _ (by simp [hne])]
        rw [← ihm, ih]

lemma getAttr_setAttr (e : XElem) (k v : String) :
    getAttr (e.setAttr k v) k = some v := by
  unfold getAttr XElem.setAttr
  show ((setAttrList e.attrs k v).find? (fun kv => kv.1 == k)).map Prod.snd =
    some v
  rw [find?_setAttrList]
  rfl

/-! ### Error paths of the conversion loops -/

lemma dictGet_none {subs : List (String × String)} {b : Nat}
    (h : ¬ (1 ≤ b ∧ b ≤ subs.length)) : dictGet subs b = none := by
  match b with
  | 0 => rfl
  | k + 1 =>
    show subs[k]? = none
    exact List.getElem?_eq_none (by omega)

lemma convertBands_err (env : Env) (dd : String) (bOut : Nat)
    (hout : dictGet env.subdatasets bOut = none)
    (hscale : ∀ sd ∈ env.subdatasets,
      (get_metadata_item (env.metadata sd.1) "scale").isSome = true) :
    ∀ (pre : List Nat) (rest : List Nat) (order : Nat) (fs : FS),
      (∀ b ∈ pre, (dictGet env.subdatasets b).isSome = true) →
      convertBands env dd (pre ++ bOut :: rest) order fs =
        .error (.keyError,
          addFiles fs ((bandCallList env dd pre order).map (·.output)))
  | [], rest, order, fs, _ => by
    simp [convertBands, hout, bandCallList, addFiles]
  | b :: pre', rest, order, fs, hpre => by
    obtain ⟨sd, hsd⟩ :=
      Option.isSome_iff_exists.1 (hpre b (List.mem_cons_self ..))
    obtain ⟨scale, hsc⟩ :=
      Option.isSome_iff_exists.1 (hscale sd (dictGet_mem hsd))
    have ih := convertBands_err env dd bOut hout hscale pre' rest (order + 1)
      (addFile fs (bandVrtName dd order b (lastColonPart sd.1)))
      (fun x hx => hpre x (List.mem_cons_of_mem _ hx))
    simp only [List.cons_append, convertBands, hsd, hsc, Option.getD_some,
      List.append_eq]
    rw [ih]
    simp [bandCallList, addFiles, hsd]

lemma mem_addFile {fs : FS} {p x : String}
    (h : x ∈ (addFile fs p).files) : x ∈ fs.files ∨ x = p := by
  unfold addFile at h
  split at h
  · exact .inl h
  · rcases List.mem_append.1 h with h | h
    · exact .inl h
    · exact .inr (List.mem_singleton.1 h)

lemma mem_addFiles : ∀ (names : List String) (fs : FS) (x : String),
    x ∈ (addFiles fs names).files → x ∈ fs.files ∨ x ∈ names
  | [], _, _, h => .inl h
  | n :: rest, fs, x, h => by
    rcases mem_addFiles rest (addFile fs n) x h with h' | h'
    · rcases mem_addFile h' with h'' | h''
      · exact .inl h''
      · exact .inr (h'' ▸ List.mem_cons_self ..)
    · exact .inr (List.mem_cons_of_mem _ h')

lemma bandCallList_outputs_under (env : Env) (dd : String) :
    ∀ (bands : List Nat) (order : Nat) (x : String),
      x ∈ (bandCallList env dd bands order).map (·.output) →
      underDir dd x = true
  | [], _, _, h => by simp [bandCallList] at h
  | b :: rest, order, x, h => by
    simp only [bandCallList, List.map_cons, List.mem_cons] at h
    rcases h with rfl | h
    · rw [bandVrtName_eq]
      exact underDir_join _ _
    · exact bandCallList_outputs_under env dd rest (order + 1) x (by simpa using h)

/-! ### Unified clean-run statement -/

/-- The per-band calls a run performs: one per requested band when a band
list is given, one per subdataset otherwise. -/
def runCalls (env : Env) (stem : String) (bands : List Nat) : List BandVrtCall :=
  if bands.isEmpty then allCallList env stem env.subdatasets 1
  else bandCallList env stem bands 1

/-- The result of a clean successful run. -/
def cleanRunResult (env : Env) (fs0 : FS) (stem : String) (bands : List Nat)
    (reproject : Bool) : RunResult :=
  { fs := { files := if hasStr fs0.files (stem ++ ".tif") then fs0.files
                     else fs0.files ++ [stem ++ ".tif"],
            dirs := fs0.dirs },
    bandVrts := runCalls env stem bands,
    mergeOutput := stem ++ ".vrt",
    mergeInputs := (runCalls env stem bands).map (·.output),
    mergeSeparate := true,
    warp := if hasStr fs0.files (stem ++ ".tif") then WarpAction.skipped
            else WarpAction.ran (if reproject then some sinuWarpOptions else none),
    metadataTarget := stem ++ ".tif",
    metadataValue := pyStrList (labelList env.subdatasets 1),
    ret := stem ++ ".tif" }

/-- The hypotheses of a clean run that do not depend on the band list. -/
abbrev CleanEnv (env : Env) (fs0 : FS) (stem : String) : Prop :=
  list_files fs0 env.directory "tif" = [] ∧
  splitextStem (stem ++ ".hdf") = stem ∧
  containsStr ".hdf" stem = false ∧
  containsStr ".vrt" stem = false ∧
  pathExists fs0 stem = false ∧
  (∀ f ∈ fs0.files, underDir stem f = false) ∧
  (∀ d ∈ fs0.dirs, underDir stem d = false) ∧
  (stem ++ ".vrt") ∉ fs0.files ∧
  (stem ++ ".tif") ∉ fs0.dirs ∧
  (∀ sd ∈ env.subdatasets,
    (get_metadata_item (env.metadata sd.1) "scale").isSome = true) ∧
  (∀ sd ∈ env.subdatasets, 5 ≤ (colonParts sd.1).length)

/-- The band-list-dependent hypotheses of a clean run. -/
abbrev CleanBands (env : Env) (bands : List Nat) : Prop :=
  if bands.isEmpty then
    env.subdatasets.length ≤ 99 ∧
    ∀ sd ∈ env.subdatasets, ∀ c ∈ (sd.1 : String).data, c ≠ '/'
  else
    (∀ b ∈ bands, 1 ≤ b ∧ b ≤ env.subdatasets.length) ∧
    bands.length ≤ 99 ∧
    ∀ sd ∈ env.subdatasets, ∀ c ∈ (lastColonPart sd.1).data, c ≠ '/'

lemma hdf2tif_spec_any (env : Env) (fs0 : FS) (stem : String)
    (bands : List Nat) (ow reproject : Bool)
    (hce : CleanEnv env fs0 stem) (hcb : CleanBands env bands) :
    hdf2tif env fs0 (stem ++ ".hdf") ow bands reproject =
      .ok (cleanRunResult env fs0 stem bands reproject) := by
  obtain ⟨how, hsplit, hhdf, hvrts, hexist, hfiles, hdirs, hvrt0, htifd,
    hscale, hparts⟩ := hce
  unfold CleanBands at hcb
  unfold cleanRunResult runCalls
  cases bands with
  | nil =>
    simp only [List.isEmpty_nil, if_true] at hcb ⊢
    exact hdf2tif_spec_all env fs0 stem ow reproject how hcb.1 hscale hcb.2
      hsplit hhdf hvrts hexist hfiles hdirs hvrt0 htifd hparts
  | cons b bs =>
    have hne : (b :: bs) ≠ ([] : List Nat) := by simp
    simp only [isEmpty_false_of_ne_nil hne, Bool.false_eq_true, if_false] at hcb ⊢
    exact hdf2tif_spec_bands env fs0 stem (b :: bs) ow reproject how hne
      hcb.1 hcb.2.1 hscale hcb.2.2 hsplit hhdf hvrts hexist hfiles hdirs
      hvrt0 htifd hparts

/-! ### Closed forms of the call lists over `enumFrom` -/

lemma bandCallList_outputs_enum (env : Env) (dd : String) :
    ∀ (bands : List Nat) (order : Nat),
      (bandCallList env dd bands order).map (·.output) =
        (List.enumFrom order bands).map (fun ob =>
          bandVrtName dd ob.1 ob.2
            (lastColonPart ((dictGet env.subdatasets ob.2).getD ("", "")).1))
  | [], _ => rfl
  | b :: rest, order => by
    simp only [bandCallList, List.map_cons, List.enumFrom]
    rw [bandCallList_outputs_enum env dd rest (order + 1)]

lemma allCallList_outputs_enum (env : Env) (dd : String) :
    ∀ (subs : List (String × String)) (order : Nat),
      (allCallList env dd subs order).map (·.output) =
        (List.enumFrom order subs).map (fun osd => allVrtName dd osd.1 osd.2.1)
  | [], _ => rfl
  | sd :: rest, order => by
    simp only [allCallList, List.map_cons, List.enumFrom]
    rw [allCallList_outputs_enum env dd rest (order + 1)]

lemma labelList_eq_enum : ∀ (subs : List (String × String)) (i : Nat),
    labelList subs i = (List.enumFrom i subs).map (fun osd =>
      zfill2 osd.1 ++ ":" ++ ((colonParts osd.2.1)[4]?.getD ""))
  | [], _ => rfl
  | sd :: rest, i => by
    simp only [labelList, List.enumFrom, List.map_cons]
    rw [labelList_eq_enum rest (i + 1)]

/-- On every normal return, `hdf2tif` hands back the path obtained from the
input by the two textual replacements. -/
lemma hdf2tif_ok_ret (env : Env) (fs0 : FS) (hdf : String) (ow : Bool)
    (bands : List Nat) (rp : Bool) (r : RunResult)
    (h : hdf2tif env fs0 hdf ow bands rp = .ok r) : r.ret = tiffOutputPath hdf := by
  unfold hdf2tif hdf2tifRest at h
  simp only [] at h
  repeat' split at h
  all_goals first
    | (injection h with h2; rw [← h2])
    | exact absurd h (by simp)

/-! ### The claims -/

lemma tag_setAttr (e : XElem) (k v : String) : (e.setAttr k v).tag = e.tag := rfl

lemma tag_replaceChild (e : XElem) (t : String) (f : XElem → XElem) :
    (e.replaceChild t f).tag = e.tag := rfl

lemma tag_appendChild (e c : XElem) : (e.appendChild c).tag = e.tag := rfl

lemma attrs_replaceChild (e : XElem) (t : String) (f : XElem → XElem) :
    (e.replaceChild t f).attrs = e.attrs := rfl

lemma children_setAttr (e : XElem) (k v : String) :
    (e.setAttr k v).children = e.children := rfl

lemma children_replaceChild (e : XElem) (t : String) (f : XElem → XElem) :
    (e.replaceChild t f).children =
      replaceFirst (fun c => c.tag == t) f e.children := rfl

lemma children_appendChild (e c : XElem) :
    (e.appendChild c).children = e.children ++ [c] := rfl

lemma map_fst_overwrite (store : List (String × XElem)) (vrt : String)
    (root' : XElem) :
    (store.map (fun kv2 => if kv2.1 == vrt then (kv2.1, root') else kv2)).map
      Prod.fst = store.map Prod.fst := by
  induction store with
  | nil => rfl
  | cons a rest ih =>
    simp only [List.map_cons]
    rw [ih]
    cases h : (a.1 == vrt)
    · simp only [h, Bool.false_eq_true, if_false]
    · simp only [h, if_true]

/-- C2: patching a VRT whose first raster band holds a complex source
forces the band's `dataType` attribute to `"Float32"` whatever it was
before, appends a `ScaleRatio` child whose text is the scale value under
that `ComplexSource`, and writes the result back under the same file name
(the stored paths are unchanged). -/
theorem c2_modify_vrt_float32_scale (root band src : XElem) (scale : String)
    (store : List (String × XElem)) (vrt : String)
    (hband : findChild root "VRTRasterBand" = some band)
    (hsrc : findChild band "ComplexSource" = some src)
    (hstore : store.find? (fun kv => kv.1 == vrt) = some (vrt, root)) :
    obsDataType (modify_vrt root scale) = some "Float32" ∧
    obsSourceChildren (modify_vrt root scale) =
      some (src.children ++ [scaleRatioElem scale]) ∧
    ((obsSourceChildren (modify_vrt root scale)).map List.getLast? =
      some (some (scaleRatioElem scale)) →
      (scaleRatioElem scale).text = some scale) ∧
    (modify_vrt_file store vrt scale).map (List.map Prod.fst) =
      some (store.map Prod.fst) := by
  have hm : modify_vrt root scale =
      some (root.replaceChild "VRTRasterBand" (fun b =>
        (b.setAttr "dataType" "Float32").replaceChild "ComplexSource"
          (fun s => s.appendChild (scaleRatioElem scale)))) := by
    simp only [modify_vrt, hband, hsrc]
  have hband' : List.find? (fun c => c.tag == "VRTRasterBand") root.children =
      some band := hband
  have hsrc' : List.find? (fun c => c.tag == "ComplexSource") band.children =
      some src := hsrc
  have hpb0 := List.find?_some hband'
  have hpb : (band.tag == "VRTRasterBand") = true := hpb0
  have hps0 := List.find?_some hsrc'
  have hps : (src.tag == "ComplexSource") = true := hps0
  have hpf : (((band.setAttr "dataType" "Float32").replaceChild "ComplexSource"
      (fun s => s.appendChild (scaleRatioElem scale))).tag ==
      "VRTRasterBand") = true := by
    rw [tag_replaceChild, tag_setAttr]
    exact hpb
  have hfind : findChild (root.replaceChild "VRTRasterBand" (fun b =>
      (b.setAttr "dataType" "Float32").replaceChild "ComplexSource"
        (fun s => s.appendChild (scaleRatioElem scale)))) "VRTRasterBand" =
      some ((band.setAttr "dataType" "Float32").replaceChild "ComplexSource"
        (fun s => s.appendChild (scaleRatioElem scale))) := by
    show List.find? (fun c => c.tag == "VRTRasterBand")
      ((root.replaceChild "VRTRasterBand" _).children) = _
    rw [children_replaceChild]
    exact find?_replaceFirst _ _ root.children band hband' hpf
  have hfind2 : findChild ((band.setAttr "dataType" "Float32").replaceChild
      "ComplexSource" (fun s => s.appendChild (scaleRatioElem scale)))
      "ComplexSource" = some (src.appendChild (scaleRatioElem scale)) := by
    show List.find? (fun c => c.tag == "ComplexSource")
      (((band.setAttr "dataType" "Float32").replaceChild "ComplexSource"
        _).children) = _
    rw [children_replaceChild, children_setAttr]
    refine find?_replaceFirst _ _ band.children src hsrc' ?_
    rw [tag_appendChild]
    exact hps
  refine ⟨?_, ?_, fun _ => rfl, ?_⟩
  · unfold obsDataType obsBand
    rw [hm]
    show (findChild _ "VRTRasterBand").bind (fun b => getAttr b "dataType") =
      some "Float32"
    rw [hfind]
    show getAttr _ "dataType" = some "Float32"
    unfold getAttr
    rw [attrs_replaceChild]
    exact getAttr_setAttr band "dataType" "Float32"
  · unfold obsSourceChildren obsBand
    rw [hm]
    show ((findChild _ "VRTRasterBand").bind
      (fun b => findChild b "ComplexSource")).map XElem.children =
      some (src.children ++ [scaleRatioElem scale])
    rw [hfind]
    show (findChild _ "ComplexSource").map XElem.children = _
    rw [hfind2]
    show some ((src.appendChild (scaleRatioElem scale)).children) = _
    rw [children_appendChild]
  · simp only [modify_vrt_file, hstore, hm]
    rw [show ∀ L : List (String × XElem),
      Option.map (List.map Prod.fst) (some L) = some (L.map Prod.fst) from
      fun L => rfl]
    rw [map_fst_overwrite]

/-- A concrete VRT tree: a raster band declaring `Int16`, holding one
complex source. -/
def vrtBandW : XElem :=
  XElem.mk "VRTRasterBand" [("dataType", "Int16"), ("band", "1")] none
    [XElem.mk "ComplexSource" [] none
      [XElem.mk "SourceFilename" [] (some "sub.hdf") []]]

def vrtRootW : XElem :=
  XElem.mk "VRTDataset" [("rasterXSize", "1200")] none [vrtBandW]

def vrtSrcW : XElem :=
  XElem.mk "ComplexSource" [] none
    [XElem.mk "SourceFilename" [] (some "sub.hdf") []]

theorem c2_modify_vrt_float32_scale_witness :
    obsDataType (modify_vrt vrtRootW "0.0001") = some "Float32" ∧
    obsSourceChildren (modify_vrt vrtRootW "0.0001") =
      some (vrtSrcW.children ++ [scaleRatioElem "0.0001"]) ∧
    ((obsSourceChildren (modify_vrt vrtRootW "0.0001")).map List.getLast? =
      some (some (scaleRatioElem "0.0001")) →
      (scaleRatioElem "0.0001").text = some "0.0001") ∧
    (modify_vrt_file [("w/Band01_x.vrt", vrtRootW)] "w/Band01_x.vrt"
      "0.0001").map (List.map Prod.fst) =
      some ([("w/Band01_x.vrt", vrtRootW)].map Prod.fst) :=
  c2_modify_vrt_float32_scale vrtRootW vrtBandW vrtSrcW "0.0001"
    [("w/Band01_x.vrt", vrtRootW)] "w/Band01_x.vrt" rfl rfl rfl

/-- C3: the scale lookup keeps exactly the metadata entries whose key
contains "scale" case-insensitively; if none matches it fails (the
unhandled `IndexError`), and a run hitting such a subdataset aborts before
any output TIFF exists; if a match exists, the value of the first matching
key is returned. -/
theorem c3_scale_lookup :
    (∀ m : List (String × String),
      (∀ kv ∈ m, containsStr "scale" (lowerStr kv.1) = false) →
      get_metadata_item m "scale" = none) ∧
    (∀ (pre post : List (String × String)) (k v : String),
      (∀ kv ∈ pre, containsStr "scale" (lowerStr kv.1) = false) →
      containsStr "scale" (lowerStr k) = true →
      get_metadata_item (pre ++ (k, v) :: post) "scale" = some v) ∧
    (∀ (env : Env) (fs0 : FS) (stem c d : String)
      (rest : List (String × String)) (ow reproject : Bool),
      env.subdatasets = (c, d) :: rest →
      get_metadata_item (env.metadata c) "scale" = none →
      list_files fs0 env.directory "tif" = [] →
      splitextStem (stem ++ ".hdf") = stem →
      pathExists fs0 stem = false →
      (stem ++ ".tif") ∉ fs0.files →
      runErr (hdf2tif env fs0 (stem ++ ".hdf") ow [] reproject) =
        some ExcKind.indexError ∧
      (stem ++ ".tif") ∉
        runFilesAtEnd (hdf2tif env fs0 (stem ++ ".hdf") ow [] reproject)) := by
  refine ⟨?_, ?_, ?_⟩
  · intro m hm
    unfold get_metadata_item
    rw [List.filter_eq_nil_iff.2 (fun kv hkv => by simp [hm kv hkv])]
    rfl
  · intro pre post k v hpre hk
    unfold get_metadata_item
    rw [List.filter_append, List.filter_eq_nil_iff.2
      (fun kv hkv => by simp [hpre kv hkv])]
    simp [hk]
  · intro env fs0 stem c d rest ow reproject hsubs hmeta how hsplit hexist htif0
    have hrun : hdf2tif env fs0 (stem ++ ".hdf") ow [] reproject =
        .error (.indexError,
          addFile { files := fs0.files, dirs := fs0.dirs ++ [stem] }
            (allVrtName stem 1 c)) := by
      unfold hdf2tif
      rw [overwriteStep_nil env fs0 ow how]
      unfold hdf2tifRest
      rw [create_output_directory_fresh fs0 stem hsplit hexist]
      have hc : convert_to_vrt env env.subdatasets stem []
          { files := fs0.files, dirs := fs0.dirs ++ [stem] } =
          .error (.indexError,
            addFile { files := fs0.files, dirs := fs0.dirs ++ [stem] }
              (allVrtName stem 1 c)) := by
        unfold convert_to_vrt
        rw [hsubs]
        simp [convertAll, hmeta]
      simp only [hc]
    rw [hrun]
    refine ⟨rfl, ?_⟩
    show (stem ++ ".tif") ∉ (addFile _ (allVrtName stem 1 c)).files
    intro hmem
    rcases mem_addFile hmem with h | h
    · exact htif0 h
    · have h1 : underDir stem (stem ++ ".tif") = true := by
        rw [h, allVrtName_eq]
        exact underDir_join _ _
      have h2 : underDir stem (stem ++ ".tif") = false :=
        underDir_append_head stem ".tif" '.' "tif".data rfl (by decide)
      rw [h1] at h2
      cases h2

/-- A subdataset whose metadata has no key containing "scale". -/
def envNoScale : Env :=
  { directory := "prog",
    subdatasets := [("HDF4_EOS:EOS_GRID:w.hdf:g:NDVI", "d")],
    metadata := fun _ => [("add_offset", "0"), ("units", "none")] }

theorem c3_scale_lookup_witness :
    get_metadata_item [("add_offset", "0"), ("units", "none")] "scale" = none ∧
    get_metadata_item
      [("add_offset", "0"), ("MY_Scale_Factor", "0.02"), ("scale2", "9")]
      "scale" = some "0.02" ∧
    runErr (hdf2tif envNoScale ⟨[], []⟩ ("w" ++ ".hdf") false [] true) =
      some ExcKind.indexError ∧
    ("w" ++ ".tif") ∉
      runFilesAtEnd (hdf2tif envNoScale ⟨[], []⟩ ("w" ++ ".hdf") false [] true) := by
  refine ⟨?_, ?_, ?_, ?_⟩
  · exact c3_scale_lookup.1 _ (by decide)
  · exact c3_scale_lookup.2.1 [("add_offset", "0")] [("scale2", "9")]
      "MY_Scale_Factor" "0.02" (by decide) (by decide)
  · exact (c3_scale_lookup.2.2 envNoScale ⟨[], []⟩ "w"
      "HDF4_EOS:EOS_GRID:w.hdf:g:NDVI" "d" [] false true rfl (by decide) rfl
      (by decide) rfl (by decide)).1
  · exact (c3_scale_lookup.2.2 envNoScale ⟨[], []⟩ "w"
      "HDF4_EOS:EOS_GRID:w.hdf:g:NDVI" "d" [] false true rfl (by decide) rfl
      (by decide) rfl (by decide)).2

/-- A clean two-subdataset environment used to instantiate the run
theorems. -/
def envW : Env :=
  { directory := "prog",
    subdatasets := [("HDF4_EOS:EOS_GRID:w.hdf:MOD_Grid:NDVI", "d1"),
                    ("HDF4_EOS:EOS_GRID:w.hdf:MOD_Grid:EVI", "d2")],
    metadata := fun _ => [("scale_factor", "0.0001")] }

/-- An empty starting filesystem. -/
def fsW : FS := { files := [], dirs := [] }

/-- C4: metadata injection walks all original subdatasets, whatever band
filter was requested, labelling the subdataset at 1-based position `i` with
its zero-padded sequence number, a colon, and the name fragment taken from
its connection string (its fifth colon-separated part), and attaches the
ordered list rendered as one metadata string to the output TIFF. -/
theorem c4_metadata_labels (env : Env) (fs0 : FS) (stem : String)
    (bands : List Nat) (ow reproject : Bool)
    (hce : CleanEnv env fs0 stem) (hcb : CleanBands env bands) :
    labelList env.subdatasets 1 = (List.enumFrom 1 env.subdatasets).map
      (fun osd => zfill2 osd.1 ++ ":" ++ ((colonParts osd.2.1)[4]?.getD "")) ∧
    runMetadataValue (hdf2tif env fs0 (stem ++ ".hdf") ow bands reproject) =
      some (pyStrList (labelList env.subdatasets 1)) ∧
    runMetadataTarget (hdf2tif env fs0 (stem ++ ".hdf") ow bands reproject) =
      runRet (hdf2tif env fs0 (stem ++ ".hdf") ow bands reproject) := by
  have hs := hdf2tif_spec_any env fs0 stem bands ow reproject hce hcb
  refine ⟨labelList_eq_enum env.subdatasets 1, ?_, ?_⟩ <;> rw [hs] <;> rfl

theorem c4_metadata_labels_witness :
    runMetadataValue (hdf2tif envW fsW ("w" ++ ".hdf") false [2] true) =
      some (pyStrList (labelList envW.subdatasets 1)) ∧
    pyStrList (labelList envW.subdatasets 1) = "['01:NDVI', '02:EVI']" := by
  refine ⟨(c4_metadata_labels envW fsW "w" [2] false true (by decide)
    (by decide)).2.1, by decide⟩

/-- C5: once the merge step is done, the warp is skipped exactly when the
output TIFF path already exists, in which case the pre-existing file is the
returned output; otherwise, with reprojection requested, `gdal.Warp` runs
from the fixed sinusoidal projection (the radius-6371007.181 sphere with
the null datum-shift grid) to geographic WGS84 (EPSG:4326), multithreaded
with a bounded memory limit. -/
theorem c5_warp_skip_or_sinu (env : Env) (fs0 : FS) (stem : String)
    (bands : List Nat) (ow : Bool)
    (hce : CleanEnv env fs0 stem) (hcb : CleanBands env bands) :
    runWarp (hdf2tif env fs0 (stem ++ ".hdf") ow bands true) =
      some (if hasStr fs0.files (stem ++ ".tif") then WarpAction.skipped
            else WarpAction.ran (some sinuWarpOptions)) ∧
    runRet (hdf2tif env fs0 (stem ++ ".hdf") ow bands true) =
      some (stem ++ ".tif") ∧
    (stem ++ ".tif") ∈
      runFilesAtEnd (hdf2tif env fs0 (stem ++ ".hdf") ow bands true) ∧
    sinuWarpOptions.srcSRS = "+proj=sinu +R=6371007.181 +nadgrids=@null +wktext" ∧
    sinuWarpOptions.dstSRS = "EPSG:4326" ∧
    containsStr "+R=6371007.181" sinuWarpOptions.srcSRS = true ∧
    containsStr "+nadgrids=@null" sinuWarpOptions.srcSRS = true ∧
    sinuWarpOptions.multithread = true := by
  have hs := hdf2tif_spec_any env fs0 stem bands ow true hce hcb
  rw [hs]
  refine ⟨rfl, rfl, ?_, rfl, rfl, by decide, by decide, rfl⟩
  show (stem ++ ".tif") ∈ (cleanRunResult env fs0 stem bands true).fs.files
  unfold cleanRunResult
  cases h : hasStr fs0.files (stem ++ ".tif")
  · simp only [h, Bool.false_eq_true, if_false]
    exact List.mem_append.2 (.inr (List.mem_singleton.2 rfl))
  · simp only [h, if_true]
    exact (hasStr_iff _ _).1 h

theorem c5_warp_skip_or_sinu_witness :
    runWarp (hdf2tif envW fsW ("w" ++ ".hdf") false [] true) =
      some (WarpAction.ran (some sinuWarpOptions)) ∧
    runWarp (hdf2tif envW { files := ["w" ++ ".tif"], dirs := [] }
        ("w" ++ ".hdf") false [] true) = some WarpAction.skipped := by
  constructor
  · have h := (c5_warp_skip_or_sinu envW fsW "w" [] false (by decide)
      (by decide)).1
    simpa using h
  · have h := (c5_warp_skip_or_sinu envW { files := ["w" ++ ".tif"], dirs := [] }
      "w" [] false (by decide) (by decide)).1
    simpa using h

/-- C9: after a clean successful run the merged VRT and everything under
the working directory are gone, the working directory itself is gone, and
of the files the run created only the final TIFF remains: the final
filesystem is the initial one plus exactly the output TIFF. -/
theorem c9_cleanup (env : Env) (fs0 : FS) (stem : String)
    (bands : List Nat) (ow reproject : Bool)
    (hce : CleanEnv env fs0 stem) (hcb : CleanBands env bands)
    (htif0 : (stem ++ ".tif") ∉ fs0.files) :
    runOk (hdf2tif env fs0 (stem ++ ".hdf") ow bands reproject) = true ∧
    runFilesAtEnd (hdf2tif env fs0 (stem ++ ".hdf") ow bands reproject) =
      fs0.files ++ [stem ++ ".tif"] ∧
    runDirs (hdf2tif env fs0 (stem ++ ".hdf") ow bands reproject) =
      some fs0.dirs ∧
    runMergeOutput (hdf2tif env fs0 (stem ++ ".hdf") ow bands reproject) =
      some (stem ++ ".vrt") ∧
    (stem ++ ".vrt") ∉
      runFilesAtEnd (hdf2tif env fs0 (stem ++ ".hdf") ow bands reproject) ∧
    (∀ f ∈ runFilesAtEnd (hdf2tif env fs0 (stem ++ ".hdf") ow bands reproject),
      underDir stem f = false) ∧
    (stem ++ ".tif") ∈
      runFilesAtEnd (hdf2tif env fs0 (stem ++ ".hdf") ow bands reproject) := by
  obtain ⟨how, hsplit, hhdf, hvrts, hexist, hfiles, hdirs, hvrt0, htifd,
    hscale, hparts⟩ := hce
  have hs := hdf2tif_spec_any env fs0 stem bands ow reproject
    ⟨how, hsplit, hhdf, hvrts, hexist, hfiles, hdirs, hvrt0, htifd,
      hscale, hparts⟩ hcb
  have hcond : hasStr fs0.files (stem ++ ".tif") = false :=
    (hasStr_false_iff _ _).2 htif0
  rw [hs]
  unfold runOk runFilesAtEnd runDirs runMergeOutput cleanRunResult
  simp only [hcond, Bool.false_eq_true, if_false]
  have hud_tif : underDir stem (stem ++ ".tif") = false :=
    underDir_append_head stem ".tif" '.' "tif".data rfl (by decide)
  refine ⟨trivial, trivial, trivial, trivial, ?_, ?_, ?_⟩
  · intro hmem
    rcases List.mem_append.1 hmem with h | h
    · exact hvrt0 h
    · exact append_ne_of_ne stem ".vrt" ".tif" (by decide)
        (List.mem_singleton.1 h)
  · intro f hf
    rcases List.mem_append.1 hf with h | h
    · exact hfiles f h
    · rw [List.mem_singleton.1 h]
      exact hud_tif
  · exact List.mem_append.2 (.inr (List.mem_singleton.2 rfl))

theorem c9_cleanup_witness :
    runFilesAtEnd (hdf2tif envW fsW ("w" ++ ".hdf") false [] true) =
      [] ++ ["w" ++ ".tif"] ∧
    runDirs (hdf2tif envW fsW ("w" ++ ".hdf") false [] true) = some [] ∧
    ("w" ++ ".vrt") ∉
      runFilesAtEnd (hdf2tif envW fsW ("w" ++ ".hdf") false [] true) := by
  have h := c9_cleanup envW fsW "w" [] false true (by decide) (by decide)
    (by decide)
  exact ⟨h.2.1, h.2.2.1, h.2.2.2.2.1⟩

/-- C1 (amended): the merge `BuildVRT` call takes exactly the single-band
VRT files found in the working directory, sorted by filename, with bands
kept separate, and — provided the working directory starts without stray
`.vrt` files and at most 99 bands are requested (resp. at most 99
subdatasets are enumerated), so that two-digit zero-padding still sorts
numerically — that sorted order is the order the bands were requested
(explicit list) or enumerated (no list): position `i` of the merge input
list is the VRT written in round `i`. -/
theorem c1_merge_band_order (env : Env) (fs0 : FS) (stem : String)
    (bands : List Nat) (ow reproject : Bool)
    (hce : CleanEnv env fs0 stem) (hcb : CleanBands env bands) :
    runMergeInputs (hdf2tif env fs0 (stem ++ ".hdf") ow bands reproject) =
      some ((runCalls env stem bands).map (·.output)) ∧
    runMergeSeparate (hdf2tif env fs0 (stem ++ ".hdf") ow bands reproject) =
      some true ∧
    (bands ≠ [] → (runCalls env stem bands).map (·.output) =
      (List.enumFrom 1 bands).map (fun ob => bandVrtName stem ob.1 ob.2
        (lastColonPart ((dictGet env.subdatasets ob.2).getD ("", "")).1))) ∧
    (bands = [] → (runCalls env stem bands).map (·.output) =
      (List.enumFrom 1 env.subdatasets).map
        (fun osd => allVrtName stem osd.1 osd.2.1)) := by
  have hs := hdf2tif_spec_any env fs0 stem bands ow reproject hce hcb
  refine ⟨by rw [hs]; rfl, by rw [hs]; rfl, ?_, ?_⟩
  · intro hne
    unfold runCalls
    rw [isEmpty_false_of_ne_nil hne]
    simp only [Bool.false_eq_true, if_false]
    exact bandCallList_outputs_enum env stem bands 1
  · rintro rfl
    unfold runCalls
    simp only [List.isEmpty_nil, if_true]
    exact allCallList_outputs_enum env stem env.subdatasets 1

theorem c1_merge_band_order_witness :
    runMergeInputs (hdf2tif envW fsW ("w" ++ ".hdf") false [2, 1] true) =
      some ((runCalls envW "w" [2, 1]).map (·.output)) ∧
    runMergeInputs (hdf2tif envW fsW ("w" ++ ".hdf") false [] true) =
      some ((runCalls envW "w" []).map (·.output)) :=
  ⟨(c1_merge_band_order envW fsW "w" [2, 1] false true (by decide)
      (by decide)).1,
   (c1_merge_band_order envW fsW "w" [] false true (by decide)
      (by decide)).1⟩

/-- A one-subdataset environment with the same band requested one hundred
times; the run succeeds, but two-digit zero-padding breaks the
filename-sort-equals-request-order property at round 100. -/
def envC1 : Env :=
  { directory := "x",
    subdatasets := [("A:B:C:D:N", "d")],
    metadata := fun _ => [("scale_factor", "0.1")] }

def c1bands : List Nat := List.replicate 100 1

set_option maxRecDepth 10000 in
theorem c1_merge_band_order_cex :
    runOk (hdf2tif envC1 ⟨[], []⟩ ("f" ++ ".hdf") false c1bands true) = true ∧
    runMergeInputs (hdf2tif envC1 ⟨[], []⟩ ("f" ++ ".hdf") false c1bands true) ≠
      some ((bandCallList envC1 "f" c1bands 1).map (·.output)) := by decide

/-- The VRT paths a `convert_to_vrt` call writes, in creation order. -/
def convertOutputs (r : Except (ExcKind × FS) (FS × List BandVrtCall)) :
    Option (List String) :=
  match r with
  | .ok (_, calls) => some (calls.map (·.output))
  | .error _ => none

/-- C6 (amended): with an explicit band list, the requested bands are
processed in the given order and band `b` at request position `o` yields a
VRT named `{o:02}_Band{b:02}_{suffix}.vrt`, where the suffix is the part of
the connection string after the last colon; with no band list all
subdatasets are processed in natural order, but the VRT written in round
`o` is named `Band{o:02}_{conn}.vrt` with the FULL connection string, not
just its suffix as the spec's "same naming scheme minus the explicit band
number" would have it. -/
theorem c6_vrt_naming (env : Env) (dd : String) (fs : FS)
    (hscale : ∀ sd ∈ env.subdatasets,
      (get_metadata_item (env.metadata sd.1) "scale").isSome = true) :
    (∀ bands : List Nat, bands ≠ [] →
      (∀ b ∈ bands, 1 ≤ b ∧ b ≤ env.subdatasets.length) →
      convertOutputs (convert_to_vrt env env.subdatasets dd bands fs) =
        some ((List.enumFrom 1 bands).map (fun ob => bandVrtName dd ob.1 ob.2
          (lastColonPart ((dictGet env.subdatasets ob.2).getD ("", "")).1)))) ∧
    (convertOutputs (convert_to_vrt env env.subdatasets dd [] fs) =
      some ((List.enumFrom 1 env.subdatasets).map
        (fun osd => allVrtName dd osd.1 osd.2.1))) ∧
    (∀ o b s, bandVrtName dd o b s =
      dd ++ "/" ++ zfill2 o ++ "_Band" ++ zfill2 b ++ "_" ++ s ++ ".vrt") ∧
    (∀ o conn, allVrtName dd o conn =
      dd ++ "/Band" ++ zfill2 o ++ "_" ++ conn ++ ".vrt") := by
  refine ⟨?_, ?_, fun _ _ _ => rfl, fun _ _ => rfl⟩
  · intro bands hne hvalid
    unfold convert_to_vrt
    rw [isEmpty_false_of_ne_nil hne]
    simp only [Bool.false_eq_true, if_false]
    rw [convertBands_ok env dd hscale bands 1 fs
      (fun b hb => dictGet_isSome (hvalid b hb).1 (hvalid b hb).2)]
    simp only [convertOutputs]
    rw [bandCallList_outputs_enum]
  · unfold convert_to_vrt
    simp only [List.isEmpty_nil, if_true]
    rw [convertAll_ok env dd env.subdatasets 1 fs hscale]
    simp only [convertOutputs]
    rw [allCallList_outputs_enum]

theorem c6_vrt_naming_witness :
    convertOutputs (convert_to_vrt envW envW.subdatasets "w" [2] fsW) =
      some ((List.enumFrom 1 [2]).map (fun ob => bandVrtName "w" ob.1 ob.2
        (lastColonPart ((dictGet envW.subdatasets ob.2).getD ("", "")).1))) ∧
    convertOutputs (convert_to_vrt envW envW.subdatasets "w" [] fsW) =
      some ((List.enumFrom 1 envW.subdatasets).map
        (fun osd => allVrtName "w" osd.1 osd.2.1)) :=
  ⟨(c6_vrt_naming envW "w" fsW (by decide)).1 [2] (by decide) (by decide),
   (c6_vrt_naming envW "w" fsW (by decide)).2.1⟩

/-- Modelled from the spec's words for claim C6's no-band case: the same
naming scheme minus the explicit band number would carry the subdataset's
internal name suffix — the part of the connection string after the last
colon — rather than the whole connection string. -/
def specAllVrtName (data_dir : String) (order : Nat) (conn : String) : String :=
  data_dir ++ "/Band" ++ zfill2 order ++ "_" ++ lastColonPart conn ++ ".vrt"

def envC6 : Env :=
  { directory := "x",
    subdatasets := [("a:b", "d")],
    metadata := fun _ => [("scale", "1")] }

theorem c6_vrt_naming_cex :
    convertOutputs (convert_to_vrt envC6 envC6.subdatasets "d" [] ⟨[], []⟩) =
      some ["d/Band01_a:b.vrt"] ∧
    specAllVrtName "d" 1 "a:b" = "d/Band01_b.vrt" ∧
    ("d/Band01_a:b.vrt" : String) ≠ specAllVrtName "d" 1 "a:b" := by decide

/-- C7 (amended): with the overwrite flag set, only the FIRST `.tif` file
the extension search reports in the program's own directory is deleted
before conversion begins (any further matches survive); the absence of a
match is not an error and the run proceeds; with the flag unset nothing is
deleted.  The last conjunct is the control flow: `hdf2tif` always continues
on the filesystem the overwrite step leaves behind. -/
theorem c7_overwrite_first_tif (env : Env) (fs : FS) (hdf : String)
    (bands : List Nat) (ow reproject : Bool) :
    (∀ t rest, list_files fs env.directory "tif" = t :: rest →
      t ∉ (overwriteStep env fs true).files ∧
      ∀ f ∈ fs.files, f ≠ t → f ∈ (overwriteStep env fs true).files) ∧
    (list_files fs env.directory "tif" = [] →
      overwriteStep env fs true = fs) ∧
    overwriteStep env fs false = fs ∧
    hdf2tif env fs hdf ow bands reproject =
      hdf2tifRest env (overwriteStep env fs ow) hdf bands reproject := by
  refine ⟨?_, ?_, rfl, rfl⟩
  · intro t rest hlist
    have hstep : overwriteStep env fs true = removeFile fs t := by
      unfold overwriteStep
      simp [hlist]
    rw [hstep]
    constructor
    · intro hmem
      unfold removeFile at hmem
      rcases List.mem_filter.1 hmem with ⟨-, hq⟩
      simp at hq
    · intro f hf hne
      unfold removeFile
      exact List.mem_filter.2 ⟨hf, by simp [hne]⟩
  · intro h
    unfold overwriteStep
    simp [h]

def envC7 : Env :=
  { directory := "p", subdatasets := [], metadata := fun _ => [] }

def fsC7 : FS := { files := ["p/a.tif", "p/b.tif"], dirs := ["p"] }

theorem c7_overwrite_first_tif_witness :
    "p/a.tif" ∉ (overwriteStep envC7 fsC7 true).files ∧
    "p/b.tif" ∈ (overwriteStep envC7 fsC7 true).files ∧
    overwriteStep envC7 ⟨[], []⟩ true = ⟨[], []⟩ ∧
    overwriteStep envC7 fsC7 false = fsC7 := by
  have h := c7_overwrite_first_tif envC7 fsC7 "f.hdf" [] false true
  have h0 := c7_overwrite_first_tif envC7 ⟨[], []⟩ "f.hdf" [] false true
  exact ⟨(h.1 "p/a.tif" ["p/b.tif"] (by decide)).1,
         (h.1 "p/a.tif" ["p/b.tif"] (by decide)).2 "p/b.tif" (by decide)
           (by decide),
         h0.2.1 rfl,
         h.2.2.1⟩

theorem c7_overwrite_first_tif_cex :
    "p/b.tif" ∈ list_files fsC7 envC7.directory "tif" ∧
    "p/b.tif" ∈ (overwriteStep envC7 fsC7 true).files := by decide

/-- C8 (amended): for an input path of the form `stem ++ ".hdf"` whose stem
contains neither ".hdf" nor ".vrt", the merged VRT is written at
`stem ++ ".vrt"` — a path distinct from the input — the final TIFF at
`stem ++ ".tif"` beside the input, and every normal return of `hdf2tif`
hands back that TIFF path.  The restriction is forced: the paths are
produced by global substring replacement, so inputs like `file.h5` (no
".hdf" occurrence) or stems containing ".hdf"/".vrt" break the claim. -/
theorem c8_output_paths (stem : String)
    (hhdf : containsStr ".hdf" stem = false)
    (hvrt : containsStr ".vrt" stem = false) :
    vrtOutputPath (stem ++ ".hdf") = stem ++ ".vrt" ∧
    tiffOutputPath (stem ++ ".hdf") = stem ++ ".tif" ∧
    vrtOutputPath (stem ++ ".hdf") ≠ stem ++ ".hdf" ∧
    (∀ (env : Env) (fs0 : FS) (ow : Bool) (bands : List Nat) (rp : Bool),
      (runRet (hdf2tif env fs0 (stem ++ ".hdf") ow bands rp)).getD
        (stem ++ ".tif") = stem ++ ".tif") := by
  have h1 := vrtOutputPath_eq stem hhdf
  have h2 := tiffOutputPath_eq stem hhdf hvrt
  refine ⟨h1, h2, ?_, ?_⟩
  · rw [h1]
    exact append_ne_of_ne stem ".vrt" ".hdf" (by decide)
  · intro env fs0 ow bands rp
    cases hr : hdf2tif env fs0 (stem ++ ".hdf") ow bands rp with
    | error e => rfl
    | ok r =>
      have hret := hdf2tif_ok_ret env fs0 (stem ++ ".hdf") ow bands rp r hr
      show r.ret = stem ++ ".tif"
      rw [hret]
      exact h2

theorem c8_output_paths_witness :
    vrtOutputPath ("work" ++ ".hdf") = "work" ++ ".vrt" ∧
    tiffOutputPath ("work" ++ ".hdf") = "work" ++ ".tif" ∧
    (runRet (hdf2tif envW fsW ("work" ++ ".hdf") false [] true)).getD
      ("work" ++ ".tif") = "work" ++ ".tif" := by
  have h := c8_output_paths "work" (by decide) (by decide)
  exact ⟨h.1, h.2.1, h.2.2.2 envW fsW false [] true⟩

theorem c8_output_paths_cex :
    vrtOutputPath "file.h5" = "file.h5" ∧
    tiffOutputPath "file.h5" = "file.h5" ∧
    tiffOutputPath "file.h5" ≠ "file" ++ ".tif" := by decide

/-- C10: a requested band index outside 1..(number of subdatasets) has no
entry in the filtered 1-based subdataset dictionary, so the run aborts with
the unhandled `KeyError` — a Python `LookupError` — before the merged VRT
or the output TIFF exists (bands listed before the offending one may
already have produced their single-band VRTs). -/
theorem c10_out_of_range (env : Env) (fs0 : FS) (stem : String)
    (pre rest : List Nat) (bOut : Nat) (ow reproject : Bool)
    (how : list_files fs0 env.directory "tif" = [])
    (hsplit : splitextStem (stem ++ ".hdf") = stem)
    (hexist : pathExists fs0 stem = false)
    (hscale : ∀ sd ∈ env.subdatasets,
      (get_metadata_item (env.metadata sd.1) "scale").isSome = true)
    (hpre : ∀ b ∈ pre, 1 ≤ b ∧ b ≤ env.subdatasets.length)
    (hout : ¬ (1 ≤ bOut ∧ bOut ≤ env.subdatasets.length))
    (hvrt0 : (stem ++ ".vrt") ∉ fs0.files)
    (htif0 : (stem ++ ".tif") ∉ fs0.files) :
    runErr (hdf2tif env fs0 (stem ++ ".hdf") ow (pre ++ bOut :: rest)
      reproject) = some ExcKind.keyError ∧
    (stem ++ ".vrt") ∉ runFilesAtEnd (hdf2tif env fs0 (stem ++ ".hdf") ow
      (pre ++ bOut :: rest) reproject) ∧
    (stem ++ ".tif") ∉ runFilesAtEnd (hdf2tif env fs0 (stem ++ ".hdf") ow
      (pre ++ bOut :: rest) reproject) := by
  have hdg : dictGet env.subdatasets bOut = none := dictGet_none hout
  have hpreSome : ∀ b ∈ pre, (dictGet env.subdatasets b).isSome = true :=
    fun b hb => dictGet_isSome (hpre b hb).1 (hpre b hb).2
  have hrun : hdf2tif env fs0 (stem ++ ".hdf") ow (pre ++ bOut :: rest)
      reproject = .error (.keyError,
        addFiles { files := fs0.files, dirs := fs0.dirs ++ [stem] }
          ((bandCallList env stem pre 1).map (·.output))) := by
    unfold hdf2tif
    rw [overwriteStep_nil env fs0 ow how]
    unfold hdf2tifRest
    rw [create_output_directory_fresh fs0 stem hsplit hexist]
    have hne : (pre ++ bOut :: rest) ≠ ([] : List Nat) := by
      cases pre <;> simp
    have hcv : convert_to_vrt env env.subdatasets stem (pre ++ bOut :: rest)
        { files := fs0.files, dirs := fs0.dirs ++ [stem] } =
        .error (.keyError,
          addFiles { files := fs0.files, dirs := fs0.dirs ++ [stem] }
            ((bandCallList env stem pre 1).map (·.output))) := by
      unfold convert_to_vrt
      rw [isEmpty_false_of_ne_nil hne]
      simp only [Bool.false_eq_true, if_false]
      exact convertBands_err env stem bOut hdg hscale pre rest 1 _ hpreSome
    simp only [hcv]
  rw [hrun]
  have hud_vrt : underDir stem (stem ++ ".vrt") = false :=
    underDir_append_head stem ".vrt" '.' "vrt".data rfl (by decide)
  have hud_tif : underDir stem (stem ++ ".tif") = false :=
    underDir_append_head stem ".tif" '.' "tif".data rfl (by decide)
  refine ⟨rfl, ?_, ?_⟩
  · intro hmem
    rcases mem_addFiles _ _ _ hmem with h | h
    · exact hvrt0 h
    · have := bandCallList_outputs_under env stem pre 1 _ h
      rw [this] at hud_vrt
      cases hud_vrt
  · intro hmem
    rcases mem_addFiles _ _ _ hmem with h | h
    · exact htif0 h
    · have := bandCallList_outputs_under env stem pre 1 _ h
      rw [this] at hud_tif
      cases hud_tif

theorem c10_out_of_range_witness :
    runErr (hdf2tif envW fsW ("w" ++ ".hdf") false ([1] ++ 5 :: []) true) =
      some ExcKind.keyError ∧
    ("w" ++ ".tif") ∉ runFilesAtEnd
      (hdf2tif envW fsW ("w" ++ ".hdf") false ([1] ++ 5 :: []) true) := by
  have h := c10_out_of_range envW fsW "w" [1] [] 5 false true (by decide)
    (by decide) (by decide) (by decide) (by decide) (by decide) (by decide)
    (by decide)
  exact ⟨h.1, h.2.2⟩

end Hdf2Tif
